import Mathlib

/-!
Verification development for the seam-carving resizer driver in `process.go`
(package caire).  The carver driver `Processor.Resize`, the rescale helper
`calculateFitness` and the encoder dispatch of `Processor.Process` are embedded
shallowly.  The development is parametric in the pixel-level carver operations
(`RotateImage90/270`, seam removal/insertion, `imaging.Resize`), which live in
other files of the repository: they are abstracted as a record of operations
`CarverOps`, and the facts the driver relies on (rotations are inverse
dimension-swapping bijections, a carve changes the width by one, Lanczos
rescaling produces the requested dimension with the other dimension rounded)
are collected in `CarverLaws`, modelled from the spec's Pixel Buffer and Seam
Mutator contracts.  A dimensions-only instance `dimOps` makes everything
executable on concrete inputs.

Go `float64` arithmetic in `calculateFitness` and in the percentage resolution
is modelled exactly, by unreduced integer fractions (`Frac`); `int(..)`
truncation is `goInt` and `math.Round` is `goRound`.  All concrete inputs used
in theorems keep this model exact (their float computations are exact in
`float64` as well).
-/

namespace Caire

/-- Axis of one carve iteration: a horizontal pass removes/inserts a vertical
seam (changes the width), a vertical pass works on the rotated buffer. -/
inductive Axis where
  | horiz
  | vert
deriving DecidableEq, Repr

/-- Which of the four mutually recursive carve closures of `Resize` is
executing: `shrinkHorizFn`, `enlargeHorizFn`, `shrinkVertFn`, `enlargeVertFn`. -/
inductive Fn where
  | shrinkH
  | enlargeH
  | shrinkV
  | enlargeV
deriving DecidableEq, Repr

/-- The fields of the Go `Processor` struct that the resize driver reads and
writes.  `SobelThreshold`, `BlurRadius`, `Debug`, `Preview`, `FaceDetect`,
`FaceAngle` only influence pixel contents or collaborators, never the driver's
control flow, and are omitted. -/
structure Processor where
  NewWidth : Int
  NewHeight : Int
  Percentage : Bool
  Square : Bool
deriving DecidableEq, Repr

/-- Package-level mutable state of `process.go` that survives across calls:
`resizeBothSide` is set to `true` when both targets are non-zero and is never
reset. -/
structure Globals where
  resizeBothSide : Bool
deriving DecidableEq, Repr

/-- Exact rational value of a Go `float64` expression, kept as an unreduced
fraction of integers so that the kernel can evaluate all operations.  Every
smart constructor below keeps `den` positive (except division by zero, which
no executed path of the claims performs).  All float computations appearing in
the theorems of this file are exact in `float64`, so exact rational
arithmetic models them faithfully. -/
structure Frac where
  num : Int
  den : Int
deriving DecidableEq, Repr

def Frac.ofInt (n : Int) : Frac :=
  ⟨n, 1⟩

def Frac.add (a b : Frac) : Frac :=
  ⟨a.num * b.den + b.num * a.den, a.den * b.den⟩

def Frac.sub (a b : Frac) : Frac :=
  ⟨a.num * b.den - b.num * a.den, a.den * b.den⟩

def Frac.mul (a b : Frac) : Frac :=
  ⟨a.num * b.num, a.den * b.den⟩

def Frac.div (a b : Frac) : Frac :=
  if 0 ≤ b.num then ⟨a.num * b.den, a.den * b.num⟩ else ⟨-(a.num * b.den), -(a.den * b.num)⟩

def Frac.neg (a : Frac) : Frac :=
  ⟨-a.num, a.den⟩

/-- `a ≤ b` by cross multiplication; correct whenever both denominators are
positive, which the smart constructors maintain. -/
def Frac.le (a b : Frac) : Bool :=
  decide (a.num * b.den ≤ b.num * a.den)

def Frac.floor (a : Frac) : Int :=
  Int.ediv a.num a.den

def Frac.min (a b : Frac) : Frac :=
  if a.le b then a else b

/-- The constant 1/2 used by the rounding helpers. -/
def Frac.half : Frac :=
  ⟨1, 2⟩

/-- Go `int(x)` conversion of a `float64`: truncation toward zero. -/
def goInt (q : Frac) : Int :=
  if (Frac.ofInt 0).le q then q.floor else -(q.neg.floor)

/-- Go `math.Round(x)`: round half away from zero. -/
def goRound (q : Frac) : Int :=
  if (Frac.ofInt 0).le q then (q.add Frac.half).floor else -((q.neg.add Frac.half).floor)

/-- `absint` from process.go. -/
def absint (i : Int) : Int :=
  if i < 0 then -i else i

/-- `min` from process.go. -/
def minint (v1 v2 : Int) : Int :=
  if v1 < v2 then v1 else v2

/-- `max` from process.go. -/
def maxint (v1 v2 : Int) : Int :=
  if v2 < v1 then v1 else v2

/-- The dimension `imaging.Resize` computes for the axis passed as `0`:
`max(1, math.Floor(other*target/src + 0.5))`. -/
def autoDim (src other target : Int) : Int :=
  maxint 1 (((Frac.ofInt (other * target)).div (Frac.ofInt src)).add Frac.half).floor

/-- Abstract interface to the carver/pixel operations used by the driver and
implemented in other files of the repository (carver.go, imaging). -/
structure CarverOps (Img : Type) where
  width : Img → Int
  height : Img → Int
  rot90 : Img → Img
  rot270 : Img → Img
  removeSeam : Img → Img
  addSeam : Img → Img
  scaleToWidth : Img → Int → Img
  scaleToHeight : Img → Int → Img

/-- Modelled from the spec: the contracts the driver needs from the Pixel
Buffer ("rotations produce a new buffer with swapped dimensions",
"rotate_270(rotate_90(b)) = b bitwise"), the Seam Mutator ("B' is W∓1 columns
wide") and the external Lanczos rescaler. -/
structure CarverLaws {Img : Type} (ops : CarverOps Img) : Prop where
  rot90_width : ∀ i, ops.width (ops.rot90 i) = ops.height i
  rot90_height : ∀ i, ops.height (ops.rot90 i) = ops.width i
  rot270_width : ∀ i, ops.width (ops.rot270 i) = ops.height i
  rot270_height : ∀ i, ops.height (ops.rot270 i) = ops.width i
  rot270_rot90 : ∀ i, ops.rot270 (ops.rot90 i) = i
  rot90_rot270 : ∀ i, ops.rot90 (ops.rot270 i) = i
  removeSeam_width : ∀ i, ops.width (ops.removeSeam i) = ops.width i - 1
  removeSeam_height : ∀ i, ops.height (ops.removeSeam i) = ops.height i
  addSeam_width : ∀ i, ops.width (ops.addSeam i) = ops.width i + 1
  addSeam_height : ∀ i, ops.height (ops.addSeam i) = ops.height i
  scaleW_width : ∀ i w, ops.width (ops.scaleToWidth i w) = w
  scaleW_height : ∀ i w,
    ops.height (ops.scaleToWidth i w) = autoDim (ops.width i) (ops.height i) w
  scaleH_height : ∀ i h, ops.height (ops.scaleToHeight i h) = h
  scaleH_width : ∀ i h,
    ops.width (ops.scaleToHeight i h) = autoDim (ops.height i) (ops.width i) h

/-- Bookkeeping threaded through the carve loop: the package-level `rCount`,
the sequence of carve iterations (`Axis` per seam), the animated-image frames
recorded by `encodeImgToGif` (the carved buffer together with the value of
`rCount` it reads), and a running index of seam computations used to inject
failures of `ComputeSeams`. -/
structure Acc (Img : Type) where
  rCount : Int
  trace : List Axis
  frames : List (Img × Int)
  seamIdx : Nat
deriving DecidableEq, Repr

def Acc.bump {Img : Type} (a : Acc Img) : Acc Img :=
  { a with rCount := a.rCount + 1 }

def Acc.carve {Img : Type} (a : Acc Img) (ax : Axis) (frame : Img) : Acc Img :=
  { a with
      trace := a.trace ++ [ax],
      frames := a.frames ++ [(frame, a.rCount)],
      seamIdx := a.seamIdx + 1 }

def Acc.seamFail {Img : Type} (a : Acc Img) : Acc Img :=
  { a with seamIdx := a.seamIdx + 1 }

/-- The four mutually recursive closures `shrinkHorizFn`, `enlargeHorizFn`,
`shrinkVertFn`, `enlargeVertFn` of `Processor.Resize` (process.go lines
126-240), written as one fuelled recursion.  `oracle` says whether the n-th
seam computation (`ComputeSeams` inside `p.shrink`/`p.enlarge`) fails; on
failure the closure returns `(nil, err)` without incrementing `rCount`,
exactly as the Go code does.  Every caller of a nested closure discards the
returned error (`img, _ = ...`) and then executes `rCount++; return img, nil`;
this is transcribed faithfully.  The result is `(possibly nil image, returned
error, bookkeeping)`; the outer `none` means the recursion ran out of fuel. -/
def carveLoop {Img : Type} (ops : CarverOps Img) (p : Processor) (rbs : Bool)
    (oracle : Nat → Bool) :
    Nat → Fn → Img → Acc Img → Option (Option Img × Option Unit × Acc Img)
  | 0, _, _, _ => none
  | fuel + 1, Fn.shrinkH, img, acc =>
    let dx := ops.width img
    let dy := ops.height img
    if p.NewWidth < dx then
      if oracle acc.seamIdx then some (none, some (), acc.seamFail)
      else
        let img1 := ops.removeSeam img
        let acc1 := acc.carve Axis.horiz img1
        let next :=
          if 0 < p.NewHeight ∧ p.NewHeight ≠ dy then
            if p.NewHeight ≤ dy then Fn.shrinkV else Fn.enlargeV
          else Fn.shrinkH
        match carveLoop ops p rbs oracle fuel next img1 acc1 with
        | none => none
        | some (io, _, acc2) => some (io, none, acc2.bump)
    else some (some img, none, acc.bump)
  | fuel + 1, Fn.enlargeH, img, acc =>
    let dx := ops.width img
    let dy := ops.height img
    if dx < p.NewWidth then
      if oracle acc.seamIdx then some (none, some (), acc.seamFail)
      else
        let img1 := ops.addSeam img
        let acc1 := acc.carve Axis.horiz img1
        let next :=
          if 0 < p.NewHeight ∧ p.NewHeight ≠ dy then
            if p.NewHeight ≤ dy then Fn.shrinkV else Fn.enlargeV
          else Fn.enlargeH
        match carveLoop ops p rbs oracle fuel next img1 acc1 with
        | none => none
        | some (io, _, acc2) => some (io, none, acc2.bump)
    else some (some img, none, acc.bump)
  | fuel + 1, Fn.shrinkV, img, acc =>
    let dx := if rbs then ops.height img else ops.width img
    let dy := if rbs then ops.width img else ops.height img
    let img0 := if rbs then ops.rot90 img else img
    if p.NewHeight < dx then
      if oracle acc.seamIdx then some (none, some (), acc.seamFail)
      else
        let img1 := ops.removeSeam img0
        let acc1 := acc.carve Axis.vert img1
        let img2 := if rbs then ops.rot270 img1 else img1
        let next :=
          if 0 < p.NewWidth ∧ p.NewWidth ≠ dy then
            if p.NewWidth ≤ dy then Fn.shrinkH else Fn.enlargeH
          else Fn.shrinkV
        match carveLoop ops p rbs oracle fuel next img2 acc1 with
        | none => none
        | some (io, _, acc2) => some (io, none, acc2.bump)
    else some (some (if rbs then ops.rot270 img0 else img0), none, acc.bump)
  | fuel + 1, Fn.enlargeV, img, acc =>
    let dx := if rbs then ops.height img else ops.width img
    let dy := if rbs then ops.width img else ops.height img
    let img0 := if rbs then ops.rot90 img else img
    if dx < p.NewHeight then
      if oracle acc.seamIdx then some (none, some (), acc.seamFail)
      else
        let img1 := ops.addSeam img0
        let acc1 := acc.carve Axis.vert img1
        let img2 := if rbs then ops.rot270 img1 else img1
        let next :=
          if 0 < p.NewWidth ∧ p.NewWidth ≠ dy then
            if p.NewWidth ≤ dy then Fn.shrinkH else Fn.enlargeH
          else Fn.enlargeV
        match carveLoop ops p rbs oracle fuel next img2 acc1 with
        | none => none
        | some (io, _, acc2) => some (io, none, acc2.bump)
    else some (some (if rbs then ops.rot270 img0 else img0), none, acc.bump)

/-- `Processor.calculateFitness` (process.go lines 363-389).  It reads the
carver's dimensions, computes the two scale factors in `float64`, rescales by
calling `imaging.Resize(img, 0, int(sw or sh))` (the second argument of the
model's `scaleToHeight`), and overwrites the carver's `Width`/`Height` with
the dimensions of the rescaled image.  The Go recursion discards the
recursively produced image but keeps the carver mutation; the fuel only
bounds this recursion. -/
def calculateFitness {Img : Type} (ops : CarverOps Img) (p : Processor) :
    Nat → Img → Int × Int → Option (Img × (Int × Int))
  | 0, _, _ => none
  | fuel + 1, img, c =>
    let w := Frac.ofInt c.1
    let h := Frac.ofInt c.2
    let nw := Frac.ofInt p.NewWidth
    let nh := Frac.ofInt p.NewHeight
    let wsf := w.div nw
    let hsf := h.div nh
    let sw := goRound (w.div (Frac.min wsf hsf))
    let sh := goRound (h.div (Frac.min wsf hsf))
    let newImg := if sw ≤ sh then ops.scaleToHeight img sw else ops.scaleToHeight img sh
    let c1 := (ops.width newImg, ops.height newImg)
    if sw < p.NewWidth ∨ sh < p.NewHeight then
      match calculateFitness ops p fuel newImg c1 with
      | none => none
      | some (_, c2) => some (newImg, c2)
    else some (newImg, c1)

/-- The two error values `Processor.Resize` can return itself. -/
inductive ResizeErr where
  | squareNeedsBoth
  | percentEnlarge
deriving DecidableEq, Repr

/-- Everything observable when `Processor.Resize` returns: the returned image
(`nil` is possible), the returned error, the mutated receiver fields, the
carver's (possibly overwritten) dimensions, the package globals and the carve
bookkeeping. -/
structure ResizeOut (Img : Type) where
  img : Option Img
  err : Option ResizeErr
  proc : Processor
  carver : Int × Int
  gs : Globals
  acc : Acc Img
deriving DecidableEq, Repr

/-- The percentage resolution of process.go lines 294-304: `pw`/`ph` are the
float-computed shrink amounts and the receiver's targets are overwritten with
`absint(dim - pw/ph)` when non-zero. -/
def percentResolve (p : Processor) (c : Int × Int) : Processor × Int × Int :=
  let pw := c.1 - goInt ((Frac.ofInt c.1).sub
    (((Frac.ofInt p.NewWidth).div (Frac.ofInt 100)).mul (Frac.ofInt c.1)))
  let ph := c.2 - goInt ((Frac.ofInt c.2).sub
    (((Frac.ofInt p.NewHeight).div (Frac.ofInt 100)).mul (Frac.ofInt c.2)))
  ({ p with
      NewWidth := if p.NewWidth ≠ 0 then absint (c.1 - pw) else p.NewWidth,
      NewHeight := if p.NewHeight ≠ 0 then absint (c.2 - ph) else p.NewHeight },
    pw, ph)

/-- Outcome of the `p.Percentage || p.Square` block (process.go lines
246-309): either an early return from `Resize`, or the (possibly mutated)
processor/carver/image to continue carving with. -/
inductive Resolved (Img : Type) where
  | early (out : ResizeOut Img)
  | carve (p : Processor) (c : Int × Int) (img : Img)

/-- The `p.Percentage || p.Square` block of `Processor.Resize`.  The
square-image percentage shortcut (lines 252-261) returns a proportional
Lanczos resize without any validation; the square branch (lines 264-291)
overwrites the targets with `min` and rescales via `calculateFitness`; the
percentage branch (lines 294-308) resolves the targets and rejects `pw >=
c.Width || ph >= c.Height`.  `rbs` is only recorded into the early outputs.
The dead recomputation of `pw`/`ph` inside the square branch (lines 276-283)
is omitted: those locals are recomputed from scratch by the percentage branch
and read nowhere else. -/
def resolveOpts {Img : Type} (ops : CarverOps Img) (fuel : Nat) (rbs : Bool)
    (p0 : Processor) (c0 : Int × Int) (img0 : Img) : Option (Resolved Img) :=
  if p0.Percentage = true ∨ p0.Square = true then
    if p0.Percentage = true ∧ c0.1 - c0.2 = 0 ∧ c0.2 - c0.1 = 0 then
      let pw := c0.1 - goInt ((Frac.ofInt c0.1).sub
        (((Frac.ofInt p0.NewWidth).div (Frac.ofInt 100)).mul (Frac.ofInt c0.1)))
      let ph := c0.2 - goInt ((Frac.ofInt c0.2).sub
        (((Frac.ofInt p0.NewHeight).div (Frac.ofInt 100)).mul (Frac.ofInt c0.2)))
      let p1 := { p0 with
                    NewWidth := absint (c0.1 - pw),
                    NewHeight := absint (c0.2 - ph) }
      let sz := minint p1.NewWidth p1.NewHeight
      some (Resolved.early
        ⟨some (ops.scaleToWidth img0 sz), none, p1, c0, ⟨rbs⟩, ⟨0, [], [], 0⟩⟩)
    else
      match
        (if p0.Square = true then
          if p0.NewWidth ≠ 0 ∧ p0.NewHeight ≠ 0 then
            let m := minint p0.NewWidth p0.NewHeight
            let pA := { p0 with NewWidth := m, NewHeight := m }
            match calculateFitness ops pA fuel img0 c0 with
            | none => none
            | some (newImg, c1) =>
              let m2 := minint (ops.width newImg) (ops.height newImg)
              some (Sum.inl ({ pA with NewWidth := m2, NewHeight := m2 }, c1, newImg))
          else some (Sum.inr ResizeErr.squareNeedsBoth)
        else some (Sum.inl (p0, c0, img0))) with
      | none => none
      | some (Sum.inr e) =>
        some (Resolved.early ⟨none, some e, p0, c0, ⟨rbs⟩, ⟨0, [], [], 0⟩⟩)
      | some (Sum.inl (p1, c1, img1)) =>
        if p0.Percentage = true then
          match percentResolve p1 c1 with
          | (p2, pw, ph) =>
            if c1.1 ≤ pw ∨ c1.2 ≤ ph then
              some (Resolved.early ⟨none, some ResizeErr.percentEnlarge, p2, c1, ⟨rbs⟩,
                ⟨0, [], [], 0⟩⟩)
            else some (Resolved.carve p2 c1 img1)
        else some (Resolved.carve p1 c1 img1)
  else some (Resolved.carve p0 c0 img0)

/-- The processor an outcome of the options block carries: the mutated
receiver on an early return, the processor that continues into carving
otherwise. -/
def Resolved.procOf {Img : Type} : Resolved Img → Processor
  | Resolved.early o => o.proc
  | Resolved.carve p2 _ _ => p2

/-- Everything `Process` can observe of a finished `Resize` call: the
returned image and error, the mutated receiver, the carver dimensions and the
carve bookkeeping — the package globals are never read back. -/
def ResizeOut.obs {Img : Type} (o : ResizeOut Img) :
    Option Img × Option ResizeErr × Processor × (Int × Int) × Acc Img :=
  (o.img, o.err, o.proc, o.carver, o.acc)

/-- The same observation for an outcome of the options block. -/
def Resolved.obs {Img : Type} :
    Resolved Img →
      (Option Img × Option ResizeErr × Processor × (Int × Int) × Acc Img) ⊕
        (Processor × (Int × Int) × Img)
  | Resolved.early o => Sum.inl o.obs
  | Resolved.carve p2 c2 i2 => Sum.inr (p2, c2, i2)

/-- The rescale of process.go lines 317-333: when both dimensions change and
both shrink, `calculateFitness` runs (mutating the carver) and the working
image is replaced unless one of the (unreachable, since both targets are
non-zero here) preserve conditions holds. -/
def prescaleStep {Img : Type} (ops : CarverOps Img) (fuel : Nat) (p : Processor)
    (c : Int × Int) (img : Img) : Option ((Int × Int) × Img) :=
  if p.NewWidth < c.1 ∧ p.NewHeight < c.2 ∧ p.NewWidth ≠ 0 ∧ p.NewHeight ≠ 0 then
    match calculateFitness ops p fuel img c with
    | none => none
    | some (newImg, c1) =>
      let keep := (p.NewWidth = 0 ∧ ops.width img = ops.width newImg) ∨
        (p.NewHeight = 0 ∧ ops.height img = ops.height newImg)
      some (c1, if keep then img else newImg)
  else some (c, img)

/-- The horizontal carve phase of `Resize` (process.go lines 335-342): run
the horizontal closure when the `newWidth` delta is positive and the target
differs from the (possibly rescaled) carver width, discarding the closure's
returned error. -/
def horizPhase {Img : Type} (ops : CarverOps Img) (p : Processor) (rbs : Bool)
    (oracle : Nat → Bool) (fuel : Nat) (newWidth : Int) (c2 : Int × Int)
    (img2 : Img) : Option (Option Img × Acc Img) :=
  if 0 < newWidth ∧ p.NewWidth ≠ c2.1 then
    match carveLoop ops p rbs oracle fuel
        (if c2.1 < p.NewWidth then Fn.enlargeH else Fn.shrinkH) img2
        ⟨0, [], [], 0⟩ with
    | none => none
    | some (io, _, acc1) => some (io, acc1)
  else some (some img2, ⟨0, [], [], 0⟩)

/-- The vertical carve phase of `Resize` (process.go lines 344-357): rotate
when `resizeBothSide` is not set, run the vertical closure, rotate back,
discarding the closure's returned error.  Modelling caveat for the failure
paths: a nil image — from the horizontal phase, or returned by the vertical
closure after a seam failure — stays nil here, whereas the Go code with
`resizeBothSide` unset would execute `c.RotateImage270(img)` on that nil
image (line 355) and panic.  `Option.map ops.rot270` on `none` folds that
crash into the same benign nil that the `resizeBothSide = true` path returns,
so theorems that let seam computations fail must not rely on this phase
distinguishing the two failure modes; globals-independence in particular is
only asserted under an oracle that never fails. -/
def vertPhase {Img : Type} (ops : CarverOps Img) (p : Processor) (rbs : Bool)
    (oracle : Nat → Bool) (fuel : Nat) (newHeight : Int) (c2 : Int × Int)
    (io1 : Option Img) (acc1 : Acc Img) : Option (Option Img × Acc Img) :=
  if 0 < newHeight ∧ p.NewHeight ≠ c2.2 then
    match io1 with
    | none => some (none, acc1)
    | some imgA =>
      let imgB := if rbs then imgA else ops.rot90 imgA
      match carveLoop ops p rbs oracle fuel
          (if c2.2 < p.NewHeight then Fn.enlargeV else Fn.shrinkV) imgB acc1 with
      | none => none
      | some (io2, _, acc2) =>
        some (if rbs then io2 else Option.map ops.rot270 io2, acc2)
  else some (io1, acc1)

/-- `Processor.Resize` (process.go lines 91-360).  The deltas `newWidth`,
`newHeight` are computed from the original dimensions and original targets
(the double-subtraction of lines 102-112, then the zero overrides of lines
114-119); `resizeBothSide` is set when both original targets are non-zero and
otherwise keeps its stale package-level value; then options are resolved, the
image possibly pre-scaled, and the two carve phases run.  Both phase call
sites discard the carve closures' error with `img, _ = ...`, and the final
statement is `return img, nil`, so the returned error of a completed `Resize`
is always `nil`. -/
def Resize {Img : Type} (ops : CarverOps Img) (oracle : Nat → Bool) (fuel : Nat)
    (p0 : Processor) (gs : Globals) (img0 : Img) : Option (ResizeOut Img) :=
  let c0 : Int × Int := (ops.width img0, ops.height img0)
  let newWidth : Int :=
    if p0.NewWidth = 0 then p0.NewWidth
    else if c0.1 < p0.NewWidth then p0.NewWidth - (p0.NewWidth - (p0.NewWidth - c0.1))
    else c0.1 - (c0.1 - (c0.1 - p0.NewWidth))
  let newHeight : Int :=
    if p0.NewHeight = 0 then p0.NewHeight
    else if c0.2 < p0.NewHeight then p0.NewHeight - (p0.NewHeight - (p0.NewHeight - c0.2))
    else c0.2 - (c0.2 - (c0.2 - p0.NewHeight))
  let rbs : Bool := if p0.NewWidth ≠ 0 ∧ p0.NewHeight ≠ 0 then true else gs.resizeBothSide
  match resolveOpts ops fuel rbs p0 c0 img0 with
  | none => none
  | some (Resolved.early out) => some out
  | some (Resolved.carve p1 c1 img1) =>
    match prescaleStep ops fuel p1 c1 img1 with
    | none => none
    | some (c2, img2) =>
      match horizPhase ops p1 rbs oracle fuel newWidth c2 img2 with
      | none => none
      | some (io1, acc1) =>
        match vertPhase ops p1 rbs oracle fuel newHeight c2 io1 acc1 with
        | none => none
        | some (io2, acc2) => some ⟨io2, none, p1, c2, ⟨rbs⟩, acc2⟩

/-- Encoder choice of `Processor.Process` (process.go lines 441-480), keyed on
the destination: for an `*os.File` the extension decides, any other writer
gets JPEG at quality 100. -/
inductive Wdest where
  | file (ext : String)
  | writer
deriving DecidableEq, Repr

inductive Encoding where
  | jpeg (quality : Int)
  | png
  | bmp
  | gif
deriving DecidableEq, Repr

inductive ProcessErr where
  | unsupportedFormat
  | resizeFailed (e : ResizeErr)
deriving DecidableEq, Repr

/-- The bytes `Process` writes are a deterministic function of the chosen
encoder, the resized image, and (for `.gif`) the recorded frames. -/
structure ProcessOut (Img : Type) where
  enc : Encoding
  img : Option Img
  gifFrames : List (Img × Int)
deriving DecidableEq, Repr

/-- Result of a `Process` call: either an error returned to the caller, or a
successful write described by `ProcessOut`. -/
inductive ProcessResult (Img : Type) where
  | failed (e : ProcessErr)
  | written (out : ProcessOut Img)
deriving DecidableEq, Repr

/-- `Processor.Process` (process.go lines 394-482) restricted to what reaches
the destination writer: decode and face detection are outside the driver, so
the model starts from the decoded `img`.  For `.gif` the written animation is
built from the frames recorded during carving (a fresh `gif.GIF` is allocated
first) and the image returned by `Resize` is ignored (`_, err := Resize`). -/
def Process {Img : Type} (ops : CarverOps Img) (oracle : Nat → Bool) (fuel : Nat)
    (p0 : Processor) (gs : Globals) (img0 : Img) (d : Wdest) :
    Option (ProcessResult Img) :=
  let viaResize : Encoding → Option (ProcessResult Img) :=
    fun enc =>
      match Resize ops oracle fuel p0 gs img0 with
      | none => none
      | some out =>
        match out.err with
        | some e => some (ProcessResult.failed (ProcessErr.resizeFailed e))
        | none =>
          match enc with
          | Encoding.gif => some (ProcessResult.written ⟨Encoding.gif, none, out.acc.frames⟩)
          | e => some (ProcessResult.written ⟨e, out.img, []⟩)
  match d with
  | Wdest.writer => viaResize (Encoding.jpeg 100)
  | Wdest.file ext =>
    if ext = "" ∨ ext = ".jpg" ∨ ext = ".jpeg" then viaResize (Encoding.jpeg 100)
    else if ext = ".png" then viaResize Encoding.png
    else if ext = ".bmp" then viaResize Encoding.bmp
    else if ext = ".gif" then viaResize Encoding.gif
    else some (ProcessResult.failed ProcessErr.unsupportedFormat)

/-- Dimensions-only pixel model: an image is its `(width, height)` pair. -/
abbrev Dims := Int × Int

def dimOps : CarverOps Dims where
  width i := i.1
  height i := i.2
  rot90 i := (i.2, i.1)
  rot270 i := (i.2, i.1)
  removeSeam i := (i.1 - 1, i.2)
  addSeam i := (i.1 + 1, i.2)
  scaleToWidth i w := (w, autoDim i.1 i.2 w)
  scaleToHeight i h := (autoDim i.2 i.1 h, h)

theorem dimLaws : CarverLaws dimOps := by
  constructor <;> intros <;> rfl

/-- Modelled from the spec: the target resolution of section 4.5, width
component.  "If percentage: Tw = W·target_width/100.  Else if square:
Tw = Th = min(target_width, target_height).  Else: Tw = target_width if >0
else W." -/
def specTargetW (p : Processor) (W H : Int) : Int :=
  if p.Percentage = true then Int.ediv (W * p.NewWidth) 100
  else if p.Square = true then minint p.NewWidth p.NewHeight
  else if p.NewWidth = 0 then W else p.NewWidth

/-- Modelled from the spec: the target resolution of section 4.5, height
component. -/
def specTargetH (p : Processor) (W H : Int) : Int :=
  if p.Percentage = true then Int.ediv (H * p.NewHeight) 100
  else if p.Square = true then minint p.NewWidth p.NewHeight
  else if p.NewHeight = 0 then H else p.NewHeight

/-- Modelled from the spec: the pre-scale of section 4.5, "proportionally
downscale (Lanczos-3) by the factor min(W/Tw, H/Th)", so the resulting
dimensions are (round(W/f), round(H/f)) for that factor f. -/
def specPrescale (W H Tw Th : Int) : Int × Int :=
  let f := Frac.min ((Frac.ofInt W).div (Frac.ofInt Tw)) ((Frac.ofInt H).div (Frac.ofInt Th))
  (goRound ((Frac.ofInt W).div f), goRound ((Frac.ofInt H).div f))

/-- Modelled from the spec: the interleaving policy of section 4.5, "at each
step, choose the axis whose remaining delta is larger (ties prefer
horizontal).  Stop when both deltas are zero." -/
def specInterleave (Tw Th : Int) : Nat → Int × Int → List Axis
  | 0, _ => []
  | fuel + 1, (w, h) =>
    if w = Tw ∧ h = Th then []
    else if absint (h - Th) ≤ absint (w - Tw) then
      Axis.horiz :: specInterleave Tw Th fuel (if w < Tw then w + 1 else w - 1, h)
    else
      Axis.vert :: specInterleave Tw Th fuel (w, if h < Th then h + 1 else h - 1)

/-- The interleaving the code actually performs when enlarging on both axes:
strict alternation.  After a horizontal carve the driver switches to the
vertical axis whenever the height has not reached its target (regardless of
which delta is larger), and symmetrically; an axis stops when it reaches its
target.  The `Bool` is `true` while the horizontal closure is executing. -/
def altEnlargeTrace (Tw Th : Int) : Nat → Bool → Int × Int → List Axis
  | 0, _, _ => []
  | fuel + 1, true, (w, h) =>
    if w < Tw then
      Axis.horiz ::
        altEnlargeTrace Tw Th fuel (if 0 < Th ∧ Th ≠ h then false else true) (w + 1, h)
    else []
  | fuel + 1, false, (w, h) =>
    if h < Th then
      Axis.vert ::
        altEnlargeTrace Tw Th fuel (if 0 < Tw ∧ Tw ≠ w then true else false) (w, h + 1)
    else []

/-- The oracle under which every seam computation succeeds. -/
def noSeamFailure : Nat → Bool := fun _ => false

section CarveLemmas

variable {Img : Type} {ops : CarverOps Img} {p : Processor} {oracle : Nat → Bool}

/-- When no target height is requested (`NewHeight = 0`), the horizontal carve
closures never delegate to the vertical ones; with enough fuel they drive the
width to `NewWidth` and preserve the height, and succeed without error.  The
`resizeBothSide` flag is never consulted on this path. -/
lemma carve_horiz_only (L : CarverLaws ops) (hor : ∀ n, oracle n = false)
    (hth : p.NewHeight = 0) (rbs : Bool) :
    ∀ d : Nat, ∀ (F : Fn) (img : Img) (acc : Acc Img) (fuel : Nat),
      (F = Fn.shrinkH ∨ F = Fn.enlargeH) →
      (F = Fn.shrinkH → p.NewWidth ≤ ops.width img) →
      (F = Fn.enlargeH → ops.width img ≤ p.NewWidth) →
      (ops.width img - p.NewWidth).natAbs = d →
      d + 1 ≤ fuel →
      ∃ img2 acc2,
        carveLoop ops p rbs oracle fuel F img acc = some (some img2, none, acc2) ∧
        ops.width img2 = p.NewWidth ∧ ops.height img2 = ops.height img := by
  intro d
  induction d using Nat.strong_induction_on with
  | _ d ih =>
    intro F img acc fuel hF h1 h2 hd hfuel
    obtain ⟨fuel', rfl⟩ : ∃ k, fuel = k + 1 := ⟨fuel - 1, by omega⟩
    have hguard : ¬(0 < p.NewHeight ∧ p.NewHeight ≠ ops.height img) := by
      rw [hth]; omega
    rcases hF with rfl | rfl
    · by_cases hlt : p.NewWidth < ops.width img
      · have hrec := ih ((ops.width (ops.removeSeam img) - p.NewWidth).natAbs)
          (by rw [L.removeSeam_width]; omega)
          Fn.shrinkH (ops.removeSeam img) (acc.carve Axis.horiz (ops.removeSeam img))
          fuel' (Or.inl rfl)
          (fun _ => by rw [L.removeSeam_width]; omega)
          (fun h => by cases h) rfl
          (by rw [L.removeSeam_width]; omega)
        obtain ⟨img2, acc2, heq, hw, hh⟩ := hrec
        refine ⟨img2, acc2.bump, ?_, hw, by rw [hh, L.removeSeam_height]⟩
        simp only [carveLoop, if_true, hor, Bool.false_eq_true, if_false, if_pos hlt,
          if_neg hguard, heq]
      · refine ⟨img, acc.bump, ?_, by have := h1 rfl; omega, rfl⟩
        simp only [carveLoop, if_true, if_neg hlt]
    · by_cases hlt : ops.width img < p.NewWidth
      · have hrec := ih ((ops.width (ops.addSeam img) - p.NewWidth).natAbs)
          (by rw [L.addSeam_width]; omega)
          Fn.enlargeH (ops.addSeam img) (acc.carve Axis.horiz (ops.addSeam img))
          fuel' (Or.inr rfl)
          (fun h => by cases h)
          (fun _ => by rw [L.addSeam_width]; omega) rfl
          (by rw [L.addSeam_width]; omega)
        obtain ⟨img2, acc2, heq, hw, hh⟩ := hrec
        refine ⟨img2, acc2.bump, ?_, hw, by rw [hh, L.addSeam_height]⟩
        simp only [carveLoop, if_true, hor, Bool.false_eq_true, if_false, if_pos hlt,
          if_neg hguard, heq]
      · refine ⟨img, acc.bump, ?_, by have := h2 rfl; omega, rfl⟩
        simp only [carveLoop, if_true, if_neg hlt]

/-- Entry invariants of the four carve closures when carving with
`resizeBothSide = true`: the axis a closure works on has not overshot its
target, and a closure is only entered with its own axis already finished when
the other axis is finished as well (the delegation guards of the code
guarantee this). -/
def PreBoth {Img : Type} (ops : CarverOps Img) (p : Processor) : Fn → Img → Prop
  | Fn.shrinkH, i =>
    0 < p.NewWidth ∧ p.NewWidth ≤ ops.width i ∧
      (ops.width i = p.NewWidth → ops.height i = p.NewHeight)
  | Fn.enlargeH, i =>
    0 < p.NewWidth ∧ ops.width i ≤ p.NewWidth ∧
      (ops.width i = p.NewWidth → ops.height i = p.NewHeight)
  | Fn.shrinkV, i =>
    p.NewHeight ≤ ops.height i ∧
      (ops.height i = p.NewHeight → p.NewWidth = 0 ∨ ops.width i = p.NewWidth)
  | Fn.enlargeV, i =>
    ops.height i ≤ p.NewHeight ∧
      (ops.height i = p.NewHeight → p.NewWidth = 0 ∨ ops.width i = p.NewWidth)

/-- Remaining number of seams until both deltas are zero (a zero target width
means the width axis is inactive). -/
def bothDist {Img : Type} (ops : CarverOps Img) (p : Processor) (i : Img) : Nat :=
  (if p.NewWidth = 0 then 0 else (ops.width i - p.NewWidth).natAbs) +
    (ops.height i - p.NewHeight).natAbs

/-- With `resizeBothSide = true`, a positive target height, a non-negative
target width and the entry invariants `PreBoth`, the interleaved carve
recursion terminates without error on an image whose height is the target
height and whose width is the target width (or the entry width when the width
axis is inactive). -/
lemma carve_both (L : CarverLaws ops) (hor : ∀ n, oracle n = false)
    (htw : 0 ≤ p.NewWidth) (hth : 0 < p.NewHeight) :
    ∀ d : Nat, ∀ (F : Fn) (img : Img) (acc : Acc Img) (fuel : Nat),
      PreBoth ops p F img →
      bothDist ops p img = d →
      d + 1 ≤ fuel →
      ∃ img2 acc2,
        carveLoop ops p true oracle fuel F img acc = some (some img2, none, acc2) ∧
        ops.width img2 = (if p.NewWidth = 0 then ops.width img else p.NewWidth) ∧
        ops.height img2 = p.NewHeight := by
  intro d
  induction d using Nat.strong_induction_on with
  | _ d ih =>
    intro F img acc fuel hF hd hfuel
    obtain ⟨fuel', rfl⟩ : ∃ k, fuel = k + 1 := ⟨fuel - 1, by omega⟩
    cases F with
    | shrinkH =>
      obtain ⟨htw1, hle, himp⟩ := hF
      have hif : ¬p.NewWidth = 0 := by omega
      by_cases hlt : p.NewWidth < ops.width img
      · have hw1 : ops.width (ops.removeSeam img) = ops.width img - 1 :=
          L.removeSeam_width img
        have hh1 : ops.height (ops.removeSeam img) = ops.height img :=
          L.removeSeam_height img
        by_cases hne : p.NewHeight ≠ ops.height img
        · have hcond : 0 < p.NewHeight ∧ p.NewHeight ≠ ops.height img := ⟨hth, hne⟩
          by_cases hvd : p.NewHeight ≤ ops.height img
          · have hrec := ih (bothDist ops p (ops.removeSeam img))
              (by simp only [bothDist, hw1, hh1, if_neg hif] at hd ⊢; omega)
              Fn.shrinkV (ops.removeSeam img)
              (acc.carve Axis.horiz (ops.removeSeam img)) fuel'
              (by exact ⟨by omega, fun h => by omega⟩)
              rfl (by simp only [bothDist, hw1, hh1, if_neg hif] at hd ⊢; omega)
            obtain ⟨img2, acc2, heq, hw2, hh2⟩ := hrec
            refine ⟨img2, acc2.bump, ?_, ?_, hh2⟩
            · simp only [carveLoop, if_true, hor, Bool.false_eq_true, if_false, if_pos hlt,
                if_pos hcond, if_pos hvd, heq]
            · rw [hw2, if_neg hif, if_neg hif]
          · have hrec := ih (bothDist ops p (ops.removeSeam img))
              (by simp only [bothDist, hw1, hh1, if_neg hif] at hd ⊢; omega)
              Fn.enlargeV (ops.removeSeam img)
              (acc.carve Axis.horiz (ops.removeSeam img)) fuel'
              (by exact ⟨by omega, fun h => by omega⟩)
              rfl (by simp only [bothDist, hw1, hh1, if_neg hif] at hd ⊢; omega)
            obtain ⟨img2, acc2, heq, hw2, hh2⟩ := hrec
            refine ⟨img2, acc2.bump, ?_, ?_, hh2⟩
            · simp only [carveLoop, if_true, hor, Bool.false_eq_true, if_false, if_pos hlt,
                if_pos hcond, if_neg hvd, heq]
            · rw [hw2, if_neg hif, if_neg hif]
        · have hcond : ¬(0 < p.NewHeight ∧ p.NewHeight ≠ ops.height img) :=
            fun h => hne h.2
          have hrec := ih (bothDist ops p (ops.removeSeam img))
            (by simp only [bothDist, hw1, hh1, if_neg hif] at hd ⊢; omega)
            Fn.shrinkH (ops.removeSeam img)
            (acc.carve Axis.horiz (ops.removeSeam img)) fuel'
            (by exact ⟨htw1, by omega, fun h => by omega⟩)
            rfl (by simp only [bothDist, hw1, hh1, if_neg hif] at hd ⊢; omega)
          obtain ⟨img2, acc2, heq, hw2, hh2⟩ := hrec
          refine ⟨img2, acc2.bump, ?_, ?_, hh2⟩
          · simp only [carveLoop, if_true, hor, Bool.false_eq_true, if_false, if_pos hlt,
              if_neg hcond, heq]
          · rw [hw2, if_neg hif, if_neg hif]
      · have hweq : ops.width img = p.NewWidth := by omega
        refine ⟨img, acc.bump, ?_, by rw [if_neg hif]; exact hweq, himp hweq⟩
        simp only [carveLoop, if_true, if_neg hlt]
    | enlargeH =>
      obtain ⟨htw1, hle, himp⟩ := hF
      have hif : ¬p.NewWidth = 0 := by omega
      by_cases hlt : ops.width img < p.NewWidth
      · have hw1 : ops.width (ops.addSeam img) = ops.width img + 1 :=
          L.addSeam_width img
        have hh1 : ops.height (ops.addSeam img) = ops.height img :=
          L.addSeam_height img
        by_cases hne : p.NewHeight ≠ ops.height img
        · have hcond : 0 < p.NewHeight ∧ p.NewHeight ≠ ops.height img := ⟨hth, hne⟩
          by_cases hvd : p.NewHeight ≤ ops.height img
          · have hrec := ih (bothDist ops p (ops.addSeam img))
              (by simp only [bothDist, hw1, hh1, if_neg hif] at hd ⊢; omega)
              Fn.shrinkV (ops.addSeam img)
              (acc.carve Axis.horiz (ops.addSeam img)) fuel'
              (by exact ⟨by omega, fun h => by omega⟩)
              rfl (by simp only [bothDist, hw1, hh1, if_neg hif] at hd ⊢; omega)
            obtain ⟨img2, acc2, heq, hw2, hh2⟩ := hrec
            refine ⟨img2, acc2.bump, ?_, ?_, hh2⟩
            · simp only [carveLoop, if_true, hor, Bool.false_eq_true, if_false, if_pos hlt,
                if_pos hcond, if_pos hvd, heq]
            · rw [hw2, if_neg hif, if_neg hif]
          · have hrec := ih (bothDist ops p (ops.addSeam img))
              (by simp only [bothDist, hw1, hh1, if_neg hif] at hd ⊢; omega)
              Fn.enlargeV (ops.addSeam img)
              (acc.carve Axis.horiz (ops.addSeam img)) fuel'
              (by exact ⟨by omega, fun h => by omega⟩)
              rfl (by simp only [bothDist, hw1, hh1, if_neg hif] at hd ⊢; omega)
            obtain ⟨img2, acc2, heq, hw2, hh2⟩ := hrec
            refine ⟨img2, acc2.bump, ?_, ?_, hh2⟩
            · simp only [carveLoop, if_true, hor, Bool.false_eq_true, if_false, if_pos hlt,
                if_pos hcond, if_neg hvd, heq]
            · rw [hw2, if_neg hif, if_neg hif]
        · have hcond : ¬(0 < p.NewHeight ∧ p.NewHeight ≠ ops.height img) :=
            fun h => hne h.2
          have hrec := ih (bothDist ops p (ops.addSeam img))
            (by simp only [bothDist, hw1, hh1, if_neg hif] at hd ⊢; omega)
            Fn.enlargeH (ops.addSeam img)
            (acc.carve Axis.horiz (ops.addSeam img)) fuel'
            (by exact ⟨htw1, by omega, fun h => by omega⟩)
            rfl (by simp only [bothDist, hw1, hh1, if_neg hif] at hd ⊢; omega)
          obtain ⟨img2, acc2, heq, hw2, hh2⟩ := hrec
          refine ⟨img2, acc2.bump, ?_, ?_, hh2⟩
          · simp only [carveLoop, if_true, hor, Bool.false_eq_true, if_false, if_pos hlt,
              if_neg hcond, heq]
          · rw [hw2, if_neg hif, if_neg hif]
      · have hweq : ops.width img = p.NewWidth := by omega
        refine ⟨img, acc.bump, ?_, by rw [if_neg hif]; exact hweq, himp hweq⟩
        simp only [carveLoop, if_true, if_neg hlt]
    | shrinkV =>
      obtain ⟨hle, himp⟩ := hF
      by_cases hlt : p.NewHeight < ops.height img
      · have hw1 : ops.width (ops.rot270 (ops.removeSeam (ops.rot90 img))) =
            ops.width img := by
          rw [L.rot270_width, L.removeSeam_height, L.rot90_height]
        have hh1 : ops.height (ops.rot270 (ops.removeSeam (ops.rot90 img))) =
            ops.height img - 1 := by
          rw [L.rot270_height, L.removeSeam_width, L.rot90_width]
        by_cases hg : 0 < p.NewWidth ∧ p.NewWidth ≠ ops.width img
        · have hif : ¬p.NewWidth = 0 := by omega
          by_cases hhd : p.NewWidth ≤ ops.width img
          · have hrec := ih (bothDist ops p (ops.rot270 (ops.removeSeam (ops.rot90 img))))
              (by simp only [bothDist, hw1, hh1, if_neg hif] at hd ⊢; omega)
              Fn.shrinkH (ops.rot270 (ops.removeSeam (ops.rot90 img)))
              (acc.carve Axis.vert (ops.removeSeam (ops.rot90 img))) fuel'
              (by exact ⟨hg.1, by omega, fun h => by exfalso; rw [hw1] at h; exact hg.2 h.symm⟩)
              rfl (by simp only [bothDist, hw1, hh1, if_neg hif] at hd ⊢; omega)
            obtain ⟨img2, acc2, heq, hw2, hh2⟩ := hrec
            refine ⟨img2, acc2.bump, ?_, ?_, hh2⟩
            · simp only [carveLoop, if_true, hor, Bool.false_eq_true, if_false, if_pos hlt,
                if_pos hg, if_pos hhd, heq]
            · rw [hw2, if_neg hif, if_neg hif]
          · have hrec := ih (bothDist ops p (ops.rot270 (ops.removeSeam (ops.rot90 img))))
              (by simp only [bothDist, hw1, hh1, if_neg hif] at hd ⊢; omega)
              Fn.enlargeH (ops.rot270 (ops.removeSeam (ops.rot90 img)))
              (acc.carve Axis.vert (ops.removeSeam (ops.rot90 img))) fuel'
              (by exact ⟨hg.1, by omega, fun h => by exfalso; rw [hw1] at h; exact hg.2 h.symm⟩)
              rfl (by simp only [bothDist, hw1, hh1, if_neg hif] at hd ⊢; omega)
            obtain ⟨img2, acc2, heq, hw2, hh2⟩ := hrec
            refine ⟨img2, acc2.bump, ?_, ?_, hh2⟩
            · simp only [carveLoop, if_true, hor, Bool.false_eq_true, if_false, if_pos hlt,
                if_pos hg, if_neg hhd, heq]
            · rw [hw2, if_neg hif, if_neg hif]
        · have hrec := ih (bothDist ops p (ops.rot270 (ops.removeSeam (ops.rot90 img))))
            (by simp only [bothDist, hw1, hh1] at hd ⊢; omega)
            Fn.shrinkV (ops.rot270 (ops.removeSeam (ops.rot90 img)))
            (acc.carve Axis.vert (ops.removeSeam (ops.rot90 img))) fuel'
            (by
              refine ⟨by omega, fun h => ?_⟩
              rw [hw1]
              rcases Decidable.em (p.NewWidth = 0) with h0 | h0
              · exact Or.inl h0
              · exact Or.inr (by push_neg at hg; omega))
            rfl (by simp only [bothDist, hw1, hh1] at hd ⊢; omega)
          obtain ⟨img2, acc2, heq, hw2, hh2⟩ := hrec
          refine ⟨img2, acc2.bump, ?_, ?_, hh2⟩
          · simp only [carveLoop, if_true, hor, Bool.false_eq_true, if_false, if_pos hlt,
              if_neg hg, heq]
          · rw [hw2, hw1]
      · have hheq : ops.height img = p.NewHeight := by omega
        refine ⟨ops.rot270 (ops.rot90 img), acc.bump, ?_, ?_, ?_⟩
        · simp only [carveLoop, if_true, if_neg hlt]
        · rw [L.rot270_width, L.rot90_height]
          rcases himp hheq with h0 | h0
          · rw [if_pos h0]
          · rw [h0]; by_cases h1 : p.NewWidth = 0
            · rw [if_pos h1, ← h0]
            · rw [if_neg h1]
        · rw [L.rot270_height, L.rot90_width, hheq]
    | enlargeV =>
      obtain ⟨hle, himp⟩ := hF
      by_cases hlt : ops.height img < p.NewHeight
      · have hw1 : ops.width (ops.rot270 (ops.addSeam (ops.rot90 img))) =
            ops.width img := by
          rw [L.rot270_width, L.addSeam_height, L.rot90_height]
        have hh1 : ops.height (ops.rot270 (ops.addSeam (ops.rot90 img))) =
            ops.height img + 1 := by
          rw [L.rot270_height, L.addSeam_width, L.rot90_width]
        by_cases hg : 0 < p.NewWidth ∧ p.NewWidth ≠ ops.width img
        · have hif : ¬p.NewWidth = 0 := by omega
          by_cases hhd : p.NewWidth ≤ ops.width img
          · have hrec := ih (bothDist ops p (ops.rot270 (ops.addSeam (ops.rot90 img))))
              (by simp only [bothDist, hw1, hh1, if_neg hif] at hd ⊢; omega)
              Fn.shrinkH (ops.rot270 (ops.addSeam (ops.rot90 img)))
              (acc.carve Axis.vert (ops.addSeam (ops.rot90 img))) fuel'
              (by exact ⟨hg.1, by omega, fun h => by exfalso; rw [hw1] at h; exact hg.2 h.symm⟩)
              rfl (by simp only [bothDist, hw1, hh1, if_neg hif] at hd ⊢; omega)
            obtain ⟨img2, acc2, heq, hw2, hh2⟩ := hrec
            refine ⟨img2, acc2.bump, ?_, ?_, hh2⟩
            · simp only [carveLoop, if_true, hor, Bool.false_eq_true, if_false, if_pos hlt,
                if_pos hg, if_pos hhd, heq]
            · rw [hw2, if_neg hif, if_neg hif]
          · have hrec := ih (bothDist ops p (ops.rot270 (ops.addSeam (ops.rot90 img))))
              (by simp only [bothDist, hw1, hh1, if_neg hif] at hd ⊢; omega)
              Fn.enlargeH (ops.rot270 (ops.addSeam (ops.rot90 img)))
              (acc.carve Axis.vert (ops.addSeam (ops.rot90 img))) fuel'
              (by exact ⟨hg.1, by omega, fun h => by exfalso; rw [hw1] at h; exact hg.2 h.symm⟩)
              rfl (by simp only [bothDist, hw1, hh1, if_neg hif] at hd ⊢; omega)
            obtain ⟨img2, acc2, heq, hw2, hh2⟩ := hrec
            refine ⟨img2, acc2.bump, ?_, ?_, hh2⟩
            · simp only [carveLoop, if_true, hor, Bool.false_eq_true, if_false, if_pos hlt,
                if_pos hg, if_neg hhd, heq]
            · rw [hw2, if_neg hif, if_neg hif]
        · have hrec := ih (bothDist ops p (ops.rot270 (ops.addSeam (ops.rot90 img))))
            (by simp only [bothDist, hw1, hh1] at hd ⊢; omega)
            Fn.enlargeV (ops.rot270 (ops.addSeam (ops.rot90 img)))
            (acc.carve Axis.vert (ops.addSeam (ops.rot90 img))) fuel'
            (by
              refine ⟨by omega, fun h => ?_⟩
              rw [hw1]
              rcases Decidable.em (p.NewWidth = 0) with h0 | h0
              · exact Or.inl h0
              · exact Or.inr (by push_neg at hg; omega))
            rfl (by simp only [bothDist, hw1, hh1] at hd ⊢; omega)
          obtain ⟨img2, acc2, heq, hw2, hh2⟩ := hrec
          refine ⟨img2, acc2.bump, ?_, ?_, hh2⟩
          · simp only [carveLoop, if_true, hor, Bool.false_eq_true, if_false, if_pos hlt,
              if_neg hg, heq]
          · rw [hw2, hw1]
      · have hheq : ops.height img = p.NewHeight := by omega
        refine ⟨ops.rot270 (ops.rot90 img), acc.bump, ?_, ?_, ?_⟩
        · simp only [carveLoop, if_true, if_neg hlt]
        · rw [L.rot270_width, L.rot90_height]
          rcases himp hheq with h0 | h0
          · rw [if_pos h0]
          · rw [h0]; by_cases h1 : p.NewWidth = 0
            · rw [if_pos h1, ← h0]
            · rw [if_neg h1]
        · rw [L.rot270_height, L.rot90_width, hheq]

/-- With `resizeBothSide = false` (a fresh process, or a stale flag cleared)
and no target width, the vertical closures operate directly on the already
rotated buffer that the top level of `Resize` passes them: with enough fuel
they drive its width (the original height) to `NewHeight`, preserve its
height, and succeed without error. -/
lemma carve_vert_only_false (L : CarverLaws ops) (hor : ∀ n, oracle n = false)
    (htw : p.NewWidth = 0) :
    ∀ d : Nat, ∀ (F : Fn) (img : Img) (acc : Acc Img) (fuel : Nat),
      (F = Fn.shrinkV ∨ F = Fn.enlargeV) →
      (F = Fn.shrinkV → p.NewHeight ≤ ops.width img) →
      (F = Fn.enlargeV → ops.width img ≤ p.NewHeight) →
      (ops.width img - p.NewHeight).natAbs = d →
      d + 1 ≤ fuel →
      ∃ img2 acc2,
        carveLoop ops p false oracle fuel F img acc = some (some img2, none, acc2) ∧
        ops.width img2 = p.NewHeight ∧ ops.height img2 = ops.height img := by
  intro d
  induction d using Nat.strong_induction_on with
  | _ d ih =>
    intro F img acc fuel hF h1 h2 hd hfuel
    obtain ⟨fuel', rfl⟩ : ∃ k, fuel = k + 1 := ⟨fuel - 1, by omega⟩
    have hguard : ¬(0 < p.NewWidth ∧ p.NewWidth ≠ ops.height img) := by
      rw [htw]; omega
    rcases hF with rfl | rfl
    · by_cases hlt : p.NewHeight < ops.width img
      · have hrec := ih ((ops.width (ops.removeSeam img) - p.NewHeight).natAbs)
          (by rw [L.removeSeam_width]; omega)
          Fn.shrinkV (ops.removeSeam img) (acc.carve Axis.vert (ops.removeSeam img))
          fuel' (Or.inl rfl)
          (fun _ => by rw [L.removeSeam_width]; omega)
          (fun h => by cases h) rfl
          (by rw [L.removeSeam_width]; omega)
        obtain ⟨img2, acc2, heq, hw, hh⟩ := hrec
        refine ⟨img2, acc2.bump, ?_, hw, by rw [hh, L.removeSeam_height]⟩
        simp only [carveLoop, Bool.false_eq_true, if_false, hor, if_pos hlt,
          if_neg hguard, heq]
      · refine ⟨img, acc.bump, ?_, by have := h1 rfl; omega, rfl⟩
        simp only [carveLoop, Bool.false_eq_true, if_false, if_neg hlt]
    · by_cases hlt : ops.width img < p.NewHeight
      · have hrec := ih ((ops.width (ops.addSeam img) - p.NewHeight).natAbs)
          (by rw [L.addSeam_width]; omega)
          Fn.enlargeV (ops.addSeam img) (acc.carve Axis.vert (ops.addSeam img))
          fuel' (Or.inr rfl)
          (fun h => by cases h)
          (fun _ => by rw [L.addSeam_width]; omega) rfl
          (by rw [L.addSeam_width]; omega)
        obtain ⟨img2, acc2, heq, hw, hh⟩ := hrec
        refine ⟨img2, acc2.bump, ?_, hw, by rw [hh, L.addSeam_height]⟩
        simp only [carveLoop, Bool.false_eq_true, if_false, hor, if_pos hlt,
          if_neg hguard, heq]
      · refine ⟨img, acc.bump, ?_, by have := h2 rfl; omega, rfl⟩
        simp only [carveLoop, Bool.false_eq_true, if_false, if_neg hlt]

/-- The interleaving the carve closures actually perform when enlarging on
both axes (with `resizeBothSide = true` and no seam failures): the recorded
trace is the strict alternation of `altEnlargeTrace`, aligned fuel for fuel
with the recursion. -/
lemma enlarge_trace (L : CarverLaws ops) (hor : ∀ n, oracle n = false)
    (htw : 0 < p.NewWidth) (hth : 0 < p.NewHeight) :
    ∀ fuel : Nat, ∀ (F : Fn) (b : Bool) (img : Img) (acc : Acc Img),
      ((F = Fn.enlargeH ∧ b = true) ∨ (F = Fn.enlargeV ∧ b = false)) →
      ops.width img ≤ p.NewWidth → ops.height img ≤ p.NewHeight →
      bothDist ops p img + 1 ≤ fuel →
      ∃ img2 acc2,
        carveLoop ops p true oracle fuel F img acc = some (some img2, none, acc2) ∧
        acc2.trace = acc.trace ++
          altEnlargeTrace p.NewWidth p.NewHeight fuel b
            (ops.width img, ops.height img) := by
  intro fuel
  induction fuel with
  | zero => intro F b img acc hFb hwle hhle hfl; omega
  | succ fuel ih =>
    intro F b img acc hFb hwle hhle hfl
    have hif : ¬p.NewWidth = 0 := by omega
    rcases hFb with ⟨rfl, rfl⟩ | ⟨rfl, rfl⟩
    · by_cases hlt : ops.width img < p.NewWidth
      · have hw1 : ops.width (ops.addSeam img) = ops.width img + 1 := L.addSeam_width img
        have hh1 : ops.height (ops.addSeam img) = ops.height img := L.addSeam_height img
        by_cases hne : p.NewHeight ≠ ops.height img
        · have hcond : 0 < p.NewHeight ∧ p.NewHeight ≠ ops.height img := ⟨hth, hne⟩
          have hvd : ¬p.NewHeight ≤ ops.height img := by omega
          obtain ⟨img2, acc2, heq, htr⟩ := ih Fn.enlargeV false (ops.addSeam img)
            (acc.carve Axis.horiz (ops.addSeam img)) (Or.inr ⟨rfl, rfl⟩)
            (by omega) (by omega)
            (by simp only [bothDist, hw1, hh1, if_neg hif] at hfl ⊢; omega)
          refine ⟨img2, acc2.bump, ?_, ?_⟩
          · simp only [carveLoop, if_true, hor, Bool.false_eq_true, if_false, if_pos hlt,
              if_pos hcond, if_neg hvd, heq]
          · simp [Acc.carve, Acc.bump, htr, hw1, hh1, altEnlargeTrace, hlt, hcond]
        · have hcond : ¬(0 < p.NewHeight ∧ p.NewHeight ≠ ops.height img) :=
            fun h => hne h.2
          obtain ⟨img2, acc2, heq, htr⟩ := ih Fn.enlargeH true (ops.addSeam img)
            (acc.carve Axis.horiz (ops.addSeam img)) (Or.inl ⟨rfl, rfl⟩)
            (by omega) (by omega)
            (by simp only [bothDist, hw1, hh1, if_neg hif] at hfl ⊢; omega)
          refine ⟨img2, acc2.bump, ?_, ?_⟩
          · simp only [carveLoop, if_true, hor, Bool.false_eq_true, if_false, if_pos hlt,
              if_neg hcond, heq]
          · simp [Acc.carve, Acc.bump, htr, hw1, hh1, altEnlargeTrace, hlt, hcond]
      · refine ⟨img, acc.bump, ?_, ?_⟩
        · simp only [carveLoop, if_true, if_neg hlt]
        · simp [Acc.bump, altEnlargeTrace, hlt]
    · by_cases hlt : ops.height img < p.NewHeight
      · have hw1 : ops.width (ops.rot270 (ops.addSeam (ops.rot90 img))) =
            ops.width img := by
          rw [L.rot270_width, L.addSeam_height, L.rot90_height]
        have hh1 : ops.height (ops.rot270 (ops.addSeam (ops.rot90 img))) =
            ops.height img + 1 := by
          rw [L.rot270_height, L.addSeam_width, L.rot90_width]
        by_cases hne : p.NewWidth ≠ ops.width img
        · have hg : 0 < p.NewWidth ∧ p.NewWidth ≠ ops.width img := ⟨htw, hne⟩
          have hhd : ¬p.NewWidth ≤ ops.width img := by omega
          obtain ⟨img2, acc2, heq, htr⟩ := ih Fn.enlargeH true
            (ops.rot270 (ops.addSeam (ops.rot90 img)))
            (acc.carve Axis.vert (ops.addSeam (ops.rot90 img))) (Or.inl ⟨rfl, rfl⟩)
            (by omega) (by omega)
            (by simp only [bothDist, hw1, hh1, if_neg hif] at hfl ⊢; omega)
          refine ⟨img2, acc2.bump, ?_, ?_⟩
          · simp only [carveLoop, if_true, hor, Bool.false_eq_true, if_false, if_pos hlt,
              if_pos hg, if_neg hhd, heq]
          · simp [Acc.carve, Acc.bump, htr, hw1, hh1, altEnlargeTrace, hlt, hg]
        · have hg : ¬(0 < p.NewWidth ∧ p.NewWidth ≠ ops.width img) :=
            fun h => hne h.2
          obtain ⟨img2, acc2, heq, htr⟩ := ih Fn.enlargeV false
            (ops.rot270 (ops.addSeam (ops.rot90 img)))
            (acc.carve Axis.vert (ops.addSeam (ops.rot90 img))) (Or.inr ⟨rfl, rfl⟩)
            (by omega) (by omega)
            (by simp only [bothDist, hw1, hh1, if_neg hif] at hfl ⊢; omega)
          refine ⟨img2, acc2.bump, ?_, ?_⟩
          · simp only [carveLoop, if_true, hor, Bool.false_eq_true, if_false, if_pos hlt,
              if_neg hg, heq]
          · simp [Acc.carve, Acc.bump, htr, hw1, hh1, altEnlargeTrace, hlt, hg]
      · refine ⟨ops.rot270 (ops.rot90 img), acc.bump, ?_, ?_⟩
        · simp only [carveLoop, if_true, if_neg hlt]
        · simp [Acc.bump, altEnlargeTrace, hlt]

end CarveLemmas

/-- Euclidean division by a positive divisor dominates any integer whose
product with the divisor is below the dividend. -/
lemma le_ediv_of_mul_le {a b k : Int} (hb : 0 < b) (h : k * b ≤ a) :
    k ≤ Int.ediv a b :=
  (Int.le_ediv_iff_mul_le hb).mpr h

/-- A lower bound for the rounding used in `calculateFitness` and the
imaging library: if `k*den ≤ num` with positive `k` and `den`, then
`k ≤ goRound ⟨num, den⟩`. -/
lemma goRound_ge (q : Frac) (hd : 0 < q.den) (k : Int) (hk : 0 < k)
    (h : k * q.den ≤ q.num) : k ≤ goRound q := by
  have hnum : 0 < q.num := lt_of_lt_of_le (by positivity) h
  have hle : (Frac.ofInt 0).le q = true := by
    simp only [Frac.le, Frac.ofInt, decide_eq_true_eq]
    nlinarith
  rw [goRound, if_pos hle]
  simp only [Frac.add, Frac.half, Frac.floor]
  exact le_ediv_of_mul_le (by positivity) (by nlinarith)

/-- The width the rescale of `calculateFitness` computes is at least the
target width. -/
lemma fitness_sw_ge (W H tw th : Int) (hW : 0 < W) (hH : 0 < H)
    (htw : 0 < tw) (hth : 0 < th) :
    tw ≤ goRound ((Frac.ofInt W).div
      (Frac.min ((Frac.ofInt W).div (Frac.ofInt tw))
        ((Frac.ofInt H).div (Frac.ofInt th)))) := by
  simp only [Frac.ofInt, Frac.div, Frac.min, Frac.le, decide_eq_true_eq]
  rw [if_pos (by omega : (0 : Int) ≤ tw), if_pos (by omega : (0 : Int) ≤ th)]
  by_cases hcmp : W * 1 * (1 * th) ≤ H * 1 * (1 * tw)
  · rw [if_pos hcmp]
    rw [if_pos (by nlinarith : (0 : Int) ≤ W * 1)]
    refine goRound_ge _ (by simpa using hW) tw htw ?_
    simp only
    nlinarith
  · rw [if_neg hcmp]
    rw [if_pos (by nlinarith : (0 : Int) ≤ H * 1)]
    refine goRound_ge _ (by simpa using hH) tw htw ?_
    simp only
    nlinarith

/-- The height the rescale of `calculateFitness` computes is at least the
target height. -/
lemma fitness_sh_ge (W H tw th : Int) (hW : 0 < W) (hH : 0 < H)
    (htw : 0 < tw) (hth : 0 < th) :
    th ≤ goRound ((Frac.ofInt H).div
      (Frac.min ((Frac.ofInt W).div (Frac.ofInt tw))
        ((Frac.ofInt H).div (Frac.ofInt th)))) := by
  simp only [Frac.ofInt, Frac.div, Frac.min, Frac.le, decide_eq_true_eq]
  rw [if_pos (by omega : (0 : Int) ≤ tw), if_pos (by omega : (0 : Int) ≤ th)]
  by_cases hcmp : W * 1 * (1 * th) ≤ H * 1 * (1 * tw)
  · rw [if_pos hcmp]
    rw [if_pos (by nlinarith : (0 : Int) ≤ W * 1)]
    refine goRound_ge _ (by simpa using hW) th hth ?_
    simp only
    nlinarith
  · rw [if_neg hcmp]
    rw [if_pos (by nlinarith : (0 : Int) ≤ H * 1)]
    refine goRound_ge _ (by simpa using hH) th hth ?_
    simp only
    nlinarith

/-- With positive carver dimensions and positive targets, the recursion guard
of `calculateFitness` is false: the call returns after one rescale, and the
carver it hands back has been overwritten with the dimensions of the rescaled
image. -/
lemma calculateFitness_eq {Img : Type} (ops : CarverOps Img) (p : Processor)
    (c : Int × Int) (img : Img)
    (hw : 0 < c.1) (hh : 0 < c.2) (htw : 0 < p.NewWidth) (hth : 0 < p.NewHeight) :
    ∃ newImg, ∀ fuel2 : Nat, calculateFitness ops p (fuel2 + 1) img c =
      some (newImg, (ops.width newImg, ops.height newImg)) := by
  have hsw := fitness_sw_ge c.1 c.2 p.NewWidth p.NewHeight hw hh htw hth
  have hsh := fitness_sh_ge c.1 c.2 p.NewWidth p.NewHeight hw hh htw hth
  have hng : ¬(goRound ((Frac.ofInt c.1).div
      (Frac.min ((Frac.ofInt c.1).div (Frac.ofInt p.NewWidth))
        ((Frac.ofInt c.2).div (Frac.ofInt p.NewHeight)))) < p.NewWidth ∨
      goRound ((Frac.ofInt c.2).div
      (Frac.min ((Frac.ofInt c.1).div (Frac.ofInt p.NewWidth))
        ((Frac.ofInt c.2).div (Frac.ofInt p.NewHeight)))) < p.NewHeight) := by
    push_neg
    exact ⟨by omega, by omega⟩
  refine ⟨if goRound ((Frac.ofInt c.1).div
      (Frac.min ((Frac.ofInt c.1).div (Frac.ofInt p.NewWidth))
        ((Frac.ofInt c.2).div (Frac.ofInt p.NewHeight)))) ≤
      goRound ((Frac.ofInt c.2).div
      (Frac.min ((Frac.ofInt c.1).div (Frac.ofInt p.NewWidth))
        ((Frac.ofInt c.2).div (Frac.ofInt p.NewHeight)))) then
      ops.scaleToHeight img (goRound ((Frac.ofInt c.1).div
        (Frac.min ((Frac.ofInt c.1).div (Frac.ofInt p.NewWidth))
          ((Frac.ofInt c.2).div (Frac.ofInt p.NewHeight)))))
    else
      ops.scaleToHeight img (goRound ((Frac.ofInt c.2).div
        (Frac.min ((Frac.ofInt c.1).div (Frac.ofInt p.NewWidth))
          ((Frac.ofInt c.2).div (Frac.ofInt p.NewHeight))))), fun fuel2 => ?_⟩
  simp only [calculateFitness]
  rw [if_neg hng]

section PhaseLemmas

variable {Img : Type} {ops : CarverOps Img} {p : Processor} {oracle : Nat → Bool}

lemma horizPhase_skip {rbs : Bool} {fuel : Nat} {nw : Int} {c2 : Int × Int}
    {img2 : Img} (h : ¬(0 < nw ∧ p.NewWidth ≠ c2.1)) :
    horizPhase ops p rbs oracle fuel nw c2 img2 = some (some img2, ⟨0, [], [], 0⟩) := by
  simp only [horizPhase, if_neg h]

lemma vertPhase_skip {rbs : Bool} {fuel : Nat} {nh : Int} {c2 : Int × Int}
    {io1 : Option Img} {acc1 : Acc Img} (h : ¬(0 < nh ∧ p.NewHeight ≠ c2.2)) :
    vertPhase ops p rbs oracle fuel nh c2 io1 acc1 = some (io1, acc1) := by
  simp only [vertPhase, if_neg h]

/-- The horizontal phase with both axes active: it completes both axes, by
interleaving, from the invariant that the carver width equals the working
image width. -/
lemma horizPhase_run_both (L : CarverLaws ops) (hor : ∀ n, oracle n = false)
    (htw : 0 < p.NewWidth) (hth : 0 < p.NewHeight)
    {fuel : Nat} {nw : Int} {c2 : Int × Int} {img2 : Img}
    (hc : c2.1 = ops.width img2) (hΔ : 0 < nw) (hne : p.NewWidth ≠ c2.1)
    (hfuel : bothDist ops p img2 + 1 ≤ fuel) :
    ∃ imgA accA,
      horizPhase ops p true oracle fuel nw c2 img2 = some (some imgA, accA) ∧
      ops.width imgA = p.NewWidth ∧ ops.height imgA = p.NewHeight := by
  simp only [horizPhase, if_pos (⟨hΔ, hne⟩ : (0 < nw) ∧ p.NewWidth ≠ c2.1)]
  by_cases hdir : c2.1 < p.NewWidth
  · rw [if_pos hdir]
    obtain ⟨imgA, accA, heq, hwA, hhA⟩ :=
      carve_both L hor (le_of_lt htw) hth (bothDist ops p img2) Fn.enlargeH img2
        ⟨0, [], [], 0⟩ fuel ⟨htw, by omega, fun h => by omega⟩ rfl hfuel
    refine ⟨imgA, accA, ?_, ?_, hhA⟩
    · rw [heq]
    · rw [hwA, if_neg (by omega)]
  · rw [if_neg hdir]
    obtain ⟨imgA, accA, heq, hwA, hhA⟩ :=
      carve_both L hor (le_of_lt htw) hth (bothDist ops p img2) Fn.shrinkH img2
        ⟨0, [], [], 0⟩ fuel ⟨htw, by omega, fun h => by omega⟩ rfl hfuel
    refine ⟨imgA, accA, ?_, ?_, hhA⟩
    · rw [heq]
    · rw [hwA, if_neg (by omega)]

/-- The horizontal phase with no target height: it drives the width to the
target and preserves the height, whatever `resizeBothSide` holds. -/
lemma horizPhase_run_width_only (L : CarverLaws ops) (hor : ∀ n, oracle n = false)
    (hth0 : p.NewHeight = 0) {rbs : Bool}
    {fuel : Nat} {nw : Int} {c2 : Int × Int} {img2 : Img}
    (hc : c2.1 = ops.width img2) (hΔ : 0 < nw) (hne : p.NewWidth ≠ c2.1)
    (hfuel : (ops.width img2 - p.NewWidth).natAbs + 1 ≤ fuel) :
    ∃ imgA accA,
      horizPhase ops p rbs oracle fuel nw c2 img2 = some (some imgA, accA) ∧
      ops.width imgA = p.NewWidth ∧ ops.height imgA = ops.height img2 := by
  simp only [horizPhase, if_pos (⟨hΔ, hne⟩ : (0 < nw) ∧ p.NewWidth ≠ c2.1)]
  by_cases hdir : c2.1 < p.NewWidth
  · rw [if_pos hdir]
    obtain ⟨imgA, accA, heq, hwA, hhA⟩ :=
      carve_horiz_only L hor hth0 rbs ((ops.width img2 - p.NewWidth).natAbs)
        Fn.enlargeH img2 ⟨0, [], [], 0⟩ fuel (Or.inr rfl) (fun h => by cases h)
        (fun _ => by omega) rfl hfuel
    exact ⟨imgA, accA, by rw [heq], hwA, hhA⟩
  · rw [if_neg hdir]
    obtain ⟨imgA, accA, heq, hwA, hhA⟩ :=
      carve_horiz_only L hor hth0 rbs ((ops.width img2 - p.NewWidth).natAbs)
        Fn.shrinkH img2 ⟨0, [], [], 0⟩ fuel (Or.inl rfl) (fun _ => by omega)
        (fun h => by cases h) rfl hfuel
    exact ⟨imgA, accA, by rw [heq], hwA, hhA⟩

/-- The vertical phase with `resizeBothSide = true`: from a working image that
either already has the target height or still has the carver height, it
completes the height and keeps (or establishes) the width invariant. -/
lemma vertPhase_run_true (L : CarverLaws ops) (hor : ∀ n, oracle n = false)
    (htw : 0 ≤ p.NewWidth) (hth : 0 < p.NewHeight)
    {fuel : Nat} {nh : Int} {c2 : Int × Int} {imgA : Img} {acc1 : Acc Img}
    (hΔ : 0 < nh) (hne : p.NewHeight ≠ c2.2)
    (hA : ops.height imgA = p.NewHeight ∨ ops.height imgA = c2.2)
    (hwpre : ops.height imgA = p.NewHeight → p.NewWidth = 0 ∨ ops.width imgA = p.NewWidth)
    (hfuel : bothDist ops p imgA + 1 ≤ fuel) :
    ∃ imgF accF,
      vertPhase ops p true oracle fuel nh c2 (some imgA) acc1 = some (some imgF, accF) ∧
      ops.width imgF = (if p.NewWidth = 0 then ops.width imgA else p.NewWidth) ∧
      ops.height imgF = p.NewHeight := by
  simp only [vertPhase, if_pos (⟨hΔ, hne⟩ : (0 < nh) ∧ p.NewHeight ≠ c2.2), if_true]
  by_cases hdir : c2.2 < p.NewHeight
  · rw [if_pos hdir]
    obtain ⟨imgF, accF, heq, hwF, hhF⟩ :=
      carve_both L hor htw hth (bothDist ops p imgA) Fn.enlargeV imgA acc1 fuel
        ⟨by rcases hA with h | h <;> omega,
          fun h => hwpre h⟩ rfl hfuel
    exact ⟨imgF, accF, by rw [heq], hwF, hhF⟩
  · rw [if_neg hdir]
    obtain ⟨imgF, accF, heq, hwF, hhF⟩ :=
      carve_both L hor htw hth (bothDist ops p imgA) Fn.shrinkV imgA acc1 fuel
        ⟨by rcases hA with h | h <;> omega,
          fun h => hwpre h⟩ rfl hfuel
    exact ⟨imgF, accF, by rw [heq], hwF, hhF⟩

/-- The vertical phase with `resizeBothSide = false` and no target width: the
top level has to rotate, the closure carves the rotated buffer, and the final
rotation restores the orientation. -/
lemma vertPhase_run_false (L : CarverLaws ops) (hor : ∀ n, oracle n = false)
    (htw0 : p.NewWidth = 0) (hth : 0 < p.NewHeight)
    {fuel : Nat} {nh : Int} {c2 : Int × Int} {imgA : Img} {acc1 : Acc Img}
    (hΔ : 0 < nh) (hne : p.NewHeight ≠ c2.2)
    (hA : ops.height imgA = c2.2)
    (hfuel : (ops.height imgA - p.NewHeight).natAbs + 1 ≤ fuel) :
    ∃ imgF accF,
      vertPhase ops p false oracle fuel nh c2 (some imgA) acc1 = some (some imgF, accF) ∧
      ops.width imgF = ops.width imgA ∧
      ops.height imgF = p.NewHeight := by
  simp only [vertPhase, if_pos (⟨hΔ, hne⟩ : (0 < nh) ∧ p.NewHeight ≠ c2.2),
    Bool.false_eq_true, if_false]
  by_cases hdir : c2.2 < p.NewHeight
  · rw [if_pos hdir]
    obtain ⟨imgF, accF, heq, hwF, hhF⟩ :=
      carve_vert_only_false L hor htw0
        ((ops.width (ops.rot90 imgA) - p.NewHeight).natAbs) Fn.enlargeV
        (ops.rot90 imgA) acc1 fuel (Or.inr rfl) (fun h => by cases h)
        (fun _ => by rw [L.rot90_width]; omega) rfl
        (by rw [L.rot90_width]; omega)
    refine ⟨ops.rot270 imgF, accF, ?_, ?_, ?_⟩
    · rw [heq]; rfl
    · rw [L.rot270_width, hhF, L.rot90_height]
    · rw [L.rot270_height, hwF]
  · rw [if_neg hdir]
    obtain ⟨imgF, accF, heq, hwF, hhF⟩ :=
      carve_vert_only_false L hor htw0
        ((ops.width (ops.rot90 imgA) - p.NewHeight).natAbs) Fn.shrinkV
        (ops.rot90 imgA) acc1 fuel (Or.inl rfl)
        (fun _ => by rw [L.rot90_width]; omega) (fun h => by cases h) rfl
        (by rw [L.rot90_width]; omega)
    refine ⟨ops.rot270 imgF, accF, ?_, ?_, ?_⟩
    · rw [heq]; rfl
    · rw [L.rot270_width, hhF, L.rot90_height]
    · rw [L.rot270_height, hwF]

end PhaseLemmas

/-- C1 (amended: restricted to plain mode, `Percentage = false` and `Square =
false`; the original claim over every valid configuration is refuted by
`C1_shape_percentage_counterexample` below).  For every pixel model satisfying
the carver contracts, every seam oracle that always succeeds, every plain-mode
processor with non-negative targets and every source image with both
dimensions at least 3, `Resize` terminates (for all sufficiently large fuel)
with a `nil` error and an image whose width and height are the resolved
targets of the spec, a zero target preserving the source dimension. -/
theorem C1_plain_mode_shape {Img : Type} (ops : CarverOps Img) (L : CarverLaws ops)
    (oracle : Nat → Bool) (hor : ∀ n, oracle n = false)
    (p : Processor) (gs : Globals) (img : Img)
    (hpct : p.Percentage = false) (hsq : p.Square = false)
    (htw : 0 ≤ p.NewWidth) (hth : 0 ≤ p.NewHeight)
    (hw : 3 ≤ ops.width img) (hh : 3 ≤ ops.height img) :
    ∃ n0 : Nat, ∀ fuel, n0 ≤ fuel →
      ∃ out : ResizeOut Img, Resize ops oracle fuel p gs img = some out ∧
        out.err = none ∧
        ∃ img2, out.img = some img2 ∧
          ops.width img2 = specTargetW p (ops.width img) (ops.height img) ∧
          ops.height img2 = specTargetH p (ops.width img) (ops.height img) := by
  have hres : ∀ (fuel : Nat) (rbs : Bool),
      resolveOpts ops fuel rbs p (ops.width img, ops.height img) img =
        some (Resolved.carve p (ops.width img, ops.height img) img) := by
    intro fuel rbs
    simp only [resolveOpts]
    rw [if_neg (by simp [hpct, hsq])]
  by_cases htw0 : p.NewWidth = 0
  · by_cases hth0 : p.NewHeight = 0
    · -- no target on either axis: everything is skipped
      refine ⟨1, fun fuel hfuel => ?_⟩
      have hps : prescaleStep ops fuel p (ops.width img, ops.height img) img =
          some ((ops.width img, ops.height img), img) := by
        simp only [prescaleStep]
        rw [if_neg (by omega)]
      have hnw : (if p.NewWidth = 0 then p.NewWidth
          else if ops.width img < p.NewWidth then
            p.NewWidth - (p.NewWidth - (p.NewWidth - ops.width img))
          else ops.width img - (ops.width img - (ops.width img - p.NewWidth))) =
          p.NewWidth := if_pos htw0
      have hnh : (if p.NewHeight = 0 then p.NewHeight
          else if ops.height img < p.NewHeight then
            p.NewHeight - (p.NewHeight - (p.NewHeight - ops.height img))
          else ops.height img - (ops.height img - (ops.height img - p.NewHeight))) =
          p.NewHeight := if_pos hth0
      have hrbs : (if p.NewWidth ≠ 0 ∧ p.NewHeight ≠ 0 then true
          else gs.resizeBothSide) = gs.resizeBothSide := if_neg (by omega)
      have hH := fun (rbs : Bool) => @horizPhase_skip Img ops p oracle rbs fuel
        p.NewWidth (ops.width img, ops.height img) img (by omega)
      have hV := fun (rbs : Bool) => @vertPhase_skip Img ops p oracle rbs fuel
        p.NewHeight (ops.width img, ops.height img) (some img) ⟨0, [], [], 0⟩ (by omega)
      refine ⟨⟨some img, none, p, (ops.width img, ops.height img),
        ⟨gs.resizeBothSide⟩, ⟨0, [], [], 0⟩⟩, ?_, rfl, img, rfl, ?_, ?_⟩
      · simp only [Resize, hres, hnw, hnh, hrbs, hps, hH, hV]
      · simp [specTargetW, hpct, hsq, htw0]
      · simp [specTargetH, hpct, hsq, hth0]
    · -- height-only carve
      have hthpos : 0 < p.NewHeight := by omega
      refine ⟨(ops.height img - p.NewHeight).natAbs + 1, fun fuel hfuel => ?_⟩
      have hps : prescaleStep ops fuel p (ops.width img, ops.height img) img =
          some ((ops.width img, ops.height img), img) := by
        simp only [prescaleStep]
        rw [if_neg (by omega)]
      have hnw : (if p.NewWidth = 0 then p.NewWidth
          else if ops.width img < p.NewWidth then
            p.NewWidth - (p.NewWidth - (p.NewWidth - ops.width img))
          else ops.width img - (ops.width img - (ops.width img - p.NewWidth))) =
          p.NewWidth := if_pos htw0
      have hrbs : (if p.NewWidth ≠ 0 ∧ p.NewHeight ≠ 0 then true
          else gs.resizeBothSide) = gs.resizeBothSide := if_neg (by omega)
      have hH := fun (rbs : Bool) => @horizPhase_skip Img ops p oracle rbs fuel
        p.NewWidth (ops.width img, ops.height img) img (by omega)
      by_cases hthH : p.NewHeight = ops.height img
      · have hnh : (if p.NewHeight = 0 then p.NewHeight
            else if ops.height img < p.NewHeight then
              p.NewHeight - (p.NewHeight - (p.NewHeight - ops.height img))
            else ops.height img - (ops.height img - (ops.height img - p.NewHeight))) =
            ops.height img - p.NewHeight := by
          rw [if_neg hth0, if_neg (by omega)]; ring
        have hV := fun (rbs : Bool) => @vertPhase_skip Img ops p oracle rbs fuel
          (ops.height img - p.NewHeight) (ops.width img, ops.height img)
          (some img) ⟨0, [], [], 0⟩ (by omega)
        refine ⟨⟨some img, none, p, (ops.width img, ops.height img),
          ⟨gs.resizeBothSide⟩, ⟨0, [], [], 0⟩⟩, ?_, rfl, img, rfl, ?_, ?_⟩
        · simp only [Resize, hres, hnw, hnh, hrbs, hps, hH, hV]
        · simp [specTargetW, hpct, hsq, htw0]
        · simp [specTargetH, hpct, hsq, hthH]
      · have hnh : (if p.NewHeight = 0 then p.NewHeight
            else if ops.height img < p.NewHeight then
              p.NewHeight - (p.NewHeight - (p.NewHeight - ops.height img))
            else ops.height img - (ops.height img - (ops.height img - p.NewHeight))) =
            (if ops.height img < p.NewHeight then p.NewHeight - ops.height img
             else ops.height img - p.NewHeight) := by
          rw [if_neg hth0]; split_ifs <;> ring
        have hΔh : 0 < (if ops.height img < p.NewHeight then p.NewHeight - ops.height img
            else ops.height img - p.NewHeight) := by split_ifs <;> omega
        cases hgs : gs.resizeBothSide with
        | true =>
          have hrbs2 : (if p.NewWidth ≠ 0 ∧ p.NewHeight ≠ 0 then true
              else gs.resizeBothSide) = true := by rw [hrbs, hgs]
          obtain ⟨imgF, accF, hV, hwF, hhF⟩ := @vertPhase_run_true Img ops p oracle
            L hor htw hthpos fuel _ (ops.width img, ops.height img) img ⟨0, [], [], 0⟩
            hΔh hthH (Or.inr rfl) (fun _ => Or.inl htw0)
            (by simp only [bothDist, if_pos htw0]; omega)
          refine ⟨⟨some imgF, none, p, (ops.width img, ops.height img),
            ⟨true⟩, accF⟩, ?_, rfl, imgF, rfl, ?_, ?_⟩
          · simp only [Resize, hres, hnw, hnh, hrbs2, hps, hH, hV]
          · rw [hwF, if_pos htw0]; simp [specTargetW, hpct, hsq, htw0]
          · rw [hhF]; simp [specTargetH, hpct, hsq, hth0]
        | false =>
          have hrbs2 : (if p.NewWidth ≠ 0 ∧ p.NewHeight ≠ 0 then true
              else gs.resizeBothSide) = false := by rw [hrbs, hgs]
          obtain ⟨imgF, accF, hV, hwF, hhF⟩ := @vertPhase_run_false Img ops p oracle
            L hor htw0 hthpos fuel _ (ops.width img, ops.height img) img ⟨0, [], [], 0⟩
            hΔh hthH rfl (by omega)
          refine ⟨⟨some imgF, none, p, (ops.width img, ops.height img),
            ⟨false⟩, accF⟩, ?_, rfl, imgF, rfl, ?_, ?_⟩
          · simp only [Resize, hres, hnw, hnh, hrbs2, hps, hH, hV]
          · rw [hwF]; simp [specTargetW, hpct, hsq, htw0]
          · rw [hhF]; simp [specTargetH, hpct, hsq, hth0]
  · by_cases hth0 : p.NewHeight = 0
    · -- width-only carve
      have htwpos : 0 < p.NewWidth := by omega
      refine ⟨(ops.width img - p.NewWidth).natAbs + 1, fun fuel hfuel => ?_⟩
      have hps : prescaleStep ops fuel p (ops.width img, ops.height img) img =
          some ((ops.width img, ops.height img), img) := by
        simp only [prescaleStep]
        rw [if_neg (by omega)]
      have hnh : (if p.NewHeight = 0 then p.NewHeight
          else if ops.height img < p.NewHeight then
            p.NewHeight - (p.NewHeight - (p.NewHeight - ops.height img))
          else ops.height img - (ops.height img - (ops.height img - p.NewHeight))) =
          p.NewHeight := if_pos hth0
      have hrbs : (if p.NewWidth ≠ 0 ∧ p.NewHeight ≠ 0 then true
          else gs.resizeBothSide) = gs.resizeBothSide := if_neg (by omega)
      have hV := fun (rbs : Bool) (io1 : Option Img) (acc1 : Acc Img) =>
        @vertPhase_skip Img ops p oracle rbs fuel p.NewHeight
          (ops.width img, ops.height img) io1 acc1 (by omega)
      by_cases htwW : p.NewWidth = ops.width img
      · have hnw : (if p.NewWidth = 0 then p.NewWidth
            else if ops.width img < p.NewWidth then
              p.NewWidth - (p.NewWidth - (p.NewWidth - ops.width img))
            else ops.width img - (ops.width img - (ops.width img - p.NewWidth))) =
            ops.width img - p.NewWidth := by
          rw [if_neg htw0, if_neg (by omega)]; ring
        have hH := fun (rbs : Bool) => @horizPhase_skip Img ops p oracle rbs fuel
          (ops.width img - p.NewWidth) (ops.width img, ops.height img) img
          (fun h => h.2 htwW)
        refine ⟨⟨some img, none, p, (ops.width img, ops.height img),
          ⟨gs.resizeBothSide⟩, ⟨0, [], [], 0⟩⟩, ?_, rfl, img, rfl, ?_, ?_⟩
        · simp only [Resize, hres, hnw, hnh, hrbs, hps, hH, hV]
        · simp [specTargetW, hpct, hsq, htwW]
        · simp [specTargetH, hpct, hsq, hth0]
      · have hnw : (if p.NewWidth = 0 then p.NewWidth
            else if ops.width img < p.NewWidth then
              p.NewWidth - (p.NewWidth - (p.NewWidth - ops.width img))
            else ops.width img - (ops.width img - (ops.width img - p.NewWidth))) =
            (if ops.width img < p.NewWidth then p.NewWidth - ops.width img
             else ops.width img - p.NewWidth) := by
          rw [if_neg htw0]; split_ifs <;> ring
        have hΔw : 0 < (if ops.width img < p.NewWidth then p.NewWidth - ops.width img
            else ops.width img - p.NewWidth) := by split_ifs <;> omega
        obtain ⟨imgA, accA, hH, hwA, hhA⟩ := @horizPhase_run_width_only Img ops p oracle
          L hor hth0 gs.resizeBothSide fuel _ (ops.width img, ops.height img) img
          rfl hΔw htwW (by omega)
        refine ⟨⟨some imgA, none, p, (ops.width img, ops.height img),
          ⟨gs.resizeBothSide⟩, accA⟩, ?_, rfl, imgA, rfl, ?_, ?_⟩
        · simp only [Resize, hres, hnw, hnh, hrbs, hps, hH, hV]
        · rw [hwA]; simp [specTargetW, hpct, hsq, htw0]
        · rw [hhA]; simp [specTargetH, hpct, hsq, hth0]
    · -- both axes active: resizeBothSide is forced to true
      have htwpos : 0 < p.NewWidth := by omega
      have hthpos : 0 < p.NewHeight := by omega
      have hrbs : (if p.NewWidth ≠ 0 ∧ p.NewHeight ≠ 0 then true
          else gs.resizeBothSide) = true := if_pos ⟨htw0, hth0⟩
      by_cases hpre2 : p.NewWidth < ops.width img ∧ p.NewHeight < ops.height img
      · -- the pre-scale runs; carving continues from the rescaled image
        obtain ⟨fimg, hfit⟩ := calculateFitness_eq ops p
          (ops.width img, ops.height img) img
          (show (0 : Int) < ops.width img by omega)
          (show (0 : Int) < ops.height img by omega) htwpos hthpos
        refine ⟨bothDist ops p fimg + 1, fun fuel hfuel => ?_⟩
        obtain ⟨fuel', rfl⟩ : ∃ k, fuel = k + 1 := ⟨fuel - 1, by omega⟩
        have hps : prescaleStep ops (fuel' + 1) p (ops.width img, ops.height img) img =
            some ((ops.width fimg, ops.height fimg), fimg) := by
          simp only [prescaleStep, hfit fuel']
          rw [if_pos ⟨hpre2.1, hpre2.2, htw0, hth0⟩]
          rw [if_neg (by omega)]
        have hnw : (if p.NewWidth = 0 then p.NewWidth
            else if ops.width img < p.NewWidth then
              p.NewWidth - (p.NewWidth - (p.NewWidth - ops.width img))
            else ops.width img - (ops.width img - (ops.width img - p.NewWidth))) =
            ops.width img - p.NewWidth := by
          rw [if_neg htw0, if_neg (by omega)]; ring
        have hnh : (if p.NewHeight = 0 then p.NewHeight
            else if ops.height img < p.NewHeight then
              p.NewHeight - (p.NewHeight - (p.NewHeight - ops.height img))
            else ops.height img - (ops.height img - (ops.height img - p.NewHeight))) =
            ops.height img - p.NewHeight := by
          rw [if_neg hth0, if_neg (by omega)]; ring
        have hΔw : 0 < ops.width img - p.NewWidth := by omega
        have hΔh : 0 < ops.height img - p.NewHeight := by omega
        by_cases hwf : p.NewWidth = ops.width fimg
        · have hH := fun (rbs : Bool) => @horizPhase_skip Img ops p oracle rbs (fuel' + 1)
            (ops.width img - p.NewWidth) (ops.width fimg, ops.height fimg) fimg
            (fun h => h.2 hwf)
          by_cases hhf : p.NewHeight = ops.height fimg
          · have hV := fun (rbs : Bool) => @vertPhase_skip Img ops p oracle rbs (fuel' + 1)
              (ops.height img - p.NewHeight) (ops.width fimg, ops.height fimg)
              (some fimg) ⟨0, [], [], 0⟩ (fun h => h.2 hhf)
            refine ⟨⟨some fimg, none, p, (ops.width fimg, ops.height fimg), ⟨true⟩,
              ⟨0, [], [], 0⟩⟩, ?_, rfl, fimg, rfl, ?_, ?_⟩
            · simp only [Resize, hres, hnw, hnh, hrbs, hps, hH, hV]
            · rw [← hwf]; simp [specTargetW, hpct, hsq, htw0]
            · rw [← hhf]; simp [specTargetH, hpct, hsq, hth0]
          · obtain ⟨imgF, accF, hV, hwF, hhF⟩ := @vertPhase_run_true Img ops p oracle
              L hor htw hthpos (fuel' + 1) _ (ops.width fimg, ops.height fimg) fimg
              ⟨0, [], [], 0⟩ hΔh hhf (Or.inr rfl) (fun _ => Or.inr hwf.symm) hfuel
            refine ⟨⟨some imgF, none, p, (ops.width fimg, ops.height fimg), ⟨true⟩,
              accF⟩, ?_, rfl, imgF, rfl, ?_, ?_⟩
            · simp only [Resize, hres, hnw, hnh, hrbs, hps, hH, hV]
            · rw [hwF, if_neg htw0]; simp [specTargetW, hpct, hsq, htw0]
            · rw [hhF]; simp [specTargetH, hpct, hsq, hth0]
        · obtain ⟨imgA, accA, hH, hwA, hhA⟩ := @horizPhase_run_both Img ops p oracle
            L hor htwpos hthpos (fuel' + 1) _ (ops.width fimg, ops.height fimg) fimg
            rfl hΔw hwf hfuel
          by_cases hhf : p.NewHeight = ops.height fimg
          · have hV := fun (rbs : Bool) => @vertPhase_skip Img ops p oracle rbs (fuel' + 1)
              (ops.height img - p.NewHeight) (ops.width fimg, ops.height fimg)
              (some imgA) accA (fun h => h.2 hhf)
            refine ⟨⟨some imgA, none, p, (ops.width fimg, ops.height fimg), ⟨true⟩,
              accA⟩, ?_, rfl, imgA, rfl, ?_, ?_⟩
            · simp only [Resize, hres, hnw, hnh, hrbs, hps, hH, hV]
            · rw [hwA]; simp [specTargetW, hpct, hsq, htw0]
            · rw [hhA]; simp [specTargetH, hpct, hsq, hth0]
          · have hone : bothDist ops p imgA = 0 := by
              simp only [bothDist, hwA, hhA]
              split_ifs <;> omega
            obtain ⟨imgF, accF, hV, hwF, hhF⟩ := @vertPhase_run_true Img ops p oracle
              L hor htw hthpos (fuel' + 1) _ (ops.width fimg, ops.height fimg) imgA
              accA hΔh hhf (Or.inl hhA) (fun _ => Or.inr hwA) (by omega)
            refine ⟨⟨some imgF, none, p, (ops.width fimg, ops.height fimg), ⟨true⟩,
              accF⟩, ?_, rfl, imgF, rfl, ?_, ?_⟩
            · simp only [Resize, hres, hnw, hnh, hrbs, hps, hH, hV]
            · rw [hwF, if_neg htw0]; simp [specTargetW, hpct, hsq, htw0]
            · rw [hhF]; simp [specTargetH, hpct, hsq, hth0]
      · -- no pre-scale: carving runs from the source image
        refine ⟨bothDist ops p img + 1, fun fuel hfuel => ?_⟩
        have hps : prescaleStep ops fuel p (ops.width img, ops.height img) img =
            some ((ops.width img, ops.height img), img) := by
          simp only [prescaleStep]
          rw [if_neg (fun h => hpre2 ⟨h.1, h.2.1⟩)]
        by_cases htwW : p.NewWidth = ops.width img
        · have hnw : (if p.NewWidth = 0 then p.NewWidth
              else if ops.width img < p.NewWidth then
                p.NewWidth - (p.NewWidth - (p.NewWidth - ops.width img))
              else ops.width img - (ops.width img - (ops.width img - p.NewWidth))) =
              ops.width img - p.NewWidth := by
            rw [if_neg htw0, if_neg (by omega)]; ring
          have hH := fun (rbs : Bool) => @horizPhase_skip Img ops p oracle rbs fuel
            (ops.width img - p.NewWidth) (ops.width img, ops.height img) img
            (fun h => h.2 htwW)
          by_cases hthH : p.NewHeight = ops.height img
          · have hnh : (if p.NewHeight = 0 then p.NewHeight
                else if ops.height img < p.NewHeight then
                  p.NewHeight - (p.NewHeight - (p.NewHeight - ops.height img))
                else ops.height img - (ops.height img - (ops.height img - p.NewHeight))) =
                ops.height img - p.NewHeight := by
              rw [if_neg hth0, if_neg (by omega)]; ring
            have hV := fun (rbs : Bool) => @vertPhase_skip Img ops p oracle rbs fuel
              (ops.height img - p.NewHeight) (ops.width img, ops.height img)
              (some img) ⟨0, [], [], 0⟩ (fun h => h.2 hthH)
            refine ⟨⟨some img, none, p, (ops.width img, ops.height img), ⟨true⟩,
              ⟨0, [], [], 0⟩⟩, ?_, rfl, img, rfl, ?_, ?_⟩
            · simp only [Resize, hres, hnw, hnh, hrbs, hps, hH, hV]
            · simp [specTargetW, hpct, hsq, htwW]
            · simp [specTargetH, hpct, hsq, hthH]
          · have hnh : (if p.NewHeight = 0 then p.NewHeight
                else if ops.height img < p.NewHeight then
                  p.NewHeight - (p.NewHeight - (p.NewHeight - ops.height img))
                else ops.height img - (ops.height img - (ops.height img - p.NewHeight))) =
                (if ops.height img < p.NewHeight then p.NewHeight - ops.height img
                 else ops.height img - p.NewHeight) := by
              rw [if_neg hth0]; split_ifs <;> ring
            have hΔh : 0 < (if ops.height img < p.NewHeight then
                p.NewHeight - ops.height img else ops.height img - p.NewHeight) := by
              split_ifs <;> omega
            obtain ⟨imgF, accF, hV, hwF, hhF⟩ := @vertPhase_run_true Img ops p oracle
              L hor htw hthpos fuel _ (ops.width img, ops.height img) img
              ⟨0, [], [], 0⟩ hΔh hthH (Or.inr rfl) (fun _ => Or.inr htwW.symm) hfuel
            refine ⟨⟨some imgF, none, p, (ops.width img, ops.height img), ⟨true⟩,
              accF⟩, ?_, rfl, imgF, rfl, ?_, ?_⟩
            · simp only [Resize, hres, hnw, hnh, hrbs, hps, hH, hV]
            · rw [hwF, if_neg htw0]; simp [specTargetW, hpct, hsq, htw0]
            · rw [hhF]; simp [specTargetH, hpct, hsq, hth0]
        · have hnw : (if p.NewWidth = 0 then p.NewWidth
              else if ops.width img < p.NewWidth then
                p.NewWidth - (p.NewWidth - (p.NewWidth - ops.width img))
              else ops.width img - (ops.width img - (ops.width img - p.NewWidth))) =
              (if ops.width img < p.NewWidth then p.NewWidth - ops.width img
               else ops.width img - p.NewWidth) := by
            rw [if_neg htw0]; split_ifs <;> ring
          have hΔw : 0 < (if ops.width img < p.NewWidth then
              p.NewWidth - ops.width img else ops.width img - p.NewWidth) := by
            split_ifs <;> omega
          obtain ⟨imgA, accA, hH, hwA, hhA⟩ := @horizPhase_run_both Img ops p oracle
            L hor htwpos hthpos fuel _ (ops.width img, ops.height img) img
            rfl hΔw htwW hfuel
          by_cases hthH : p.NewHeight = ops.height img
          · have hnh : (if p.NewHeight = 0 then p.NewHeight
                else if ops.height img < p.NewHeight then
                  p.NewHeight - (p.NewHeight - (p.NewHeight - ops.height img))
                else ops.height img - (ops.height img - (ops.height img - p.NewHeight))) =
                ops.height img - p.NewHeight := by
              rw [if_neg hth0, if_neg (by omega)]; ring
            have hV := fun (rbs : Bool) => @vertPhase_skip Img ops p oracle rbs fuel
              (ops.height img - p.NewHeight) (ops.width img, ops.height img)
              (some imgA) accA (fun h => h.2 hthH)
            refine ⟨⟨some imgA, none, p, (ops.width img, ops.height img), ⟨true⟩,
              accA⟩, ?_, rfl, imgA, rfl, ?_, ?_⟩
            · simp only [Resize, hres, hnw, hnh, hrbs, hps, hH, hV]
            · rw [hwA]; simp [specTargetW, hpct, hsq, htw0]
            · rw [hhA]; simp [specTargetH, hpct, hsq, hth0]
          · have hnh : (if p.NewHeight = 0 then p.NewHeight
                else if ops.height img < p.NewHeight then
                  p.NewHeight - (p.NewHeight - (p.NewHeight - ops.height img))
                else ops.height img - (ops.height img - (ops.height img - p.NewHeight))) =
                (if ops.height img < p.NewHeight then p.NewHeight - ops.height img
                 else ops.height img - p.NewHeight) := by
              rw [if_neg hth0]; split_ifs <;> ring
            have hΔh : 0 < (if ops.height img < p.NewHeight then
                p.NewHeight - ops.height img else ops.height img - p.NewHeight) := by
              split_ifs <;> omega
            have hone : bothDist ops p imgA = 0 := by
              simp only [bothDist, hwA, hhA]
              split_ifs <;> omega
            obtain ⟨imgF, accF, hV, hwF, hhF⟩ := @vertPhase_run_true Img ops p oracle
              L hor htw hthpos fuel _ (ops.width img, ops.height img) imgA
              accA hΔh hthH (Or.inl hhA) (fun _ => Or.inr hwA) (by omega)
            refine ⟨⟨some imgF, none, p, (ops.width img, ops.height img), ⟨true⟩,
              accF⟩, ?_, rfl, imgF, rfl, ?_, ?_⟩
            · simp only [Resize, hres, hnw, hnh, hrbs, hps, hH, hV]
            · rw [hwF, if_neg htw0]; simp [specTargetW, hpct, hsq, htw0]
            · rw [hhF]; simp [specTargetH, hpct, hsq, hth0]

/-- Witness for `C1_plain_mode_shape`: the plain configuration targeting 5x4
on a 10x7 image in the dimensions model. -/
theorem C1_plain_mode_shape_witness :
    ∃ n0 : Nat, ∀ fuel, n0 ≤ fuel →
      ∃ out : ResizeOut Dims,
        Resize dimOps noSeamFailure fuel ⟨5, 4, false, false⟩ ⟨false⟩ (10, 7) = some out ∧
        out.err = none ∧
        ∃ img2, out.img = some img2 ∧
          dimOps.width img2 =
            specTargetW ⟨5, 4, false, false⟩ (dimOps.width (10, 7)) (dimOps.height (10, 7)) ∧
          dimOps.height img2 =
            specTargetH ⟨5, 4, false, false⟩ (dimOps.width (10, 7)) (dimOps.height (10, 7)) :=
  C1_plain_mode_shape dimOps dimLaws noSeamFailure (fun _ => rfl)
    ⟨5, 4, false, false⟩ ⟨false⟩ (10, 7) rfl rfl (by decide) (by decide)
    (by decide) (by decide)

section FrameLemmas

variable {Img : Type} {ops : CarverOps Img} {p : Processor} {oracle : Nat → Bool}

/-- Every carve iteration records exactly one animation frame: the closures
grow `frames` and `trace` in lock step (the error path and the `rCount`
bump touch neither). -/
lemma carve_frames_length {rbs : Bool} :
    ∀ fuel : Nat, ∀ (F : Fn) (img : Img) (acc : Acc Img)
      (io : Option Img) (e : Option Unit) (acc2 : Acc Img),
      acc.frames.length = acc.trace.length →
      carveLoop ops p rbs oracle fuel F img acc = some (io, e, acc2) →
      acc2.frames.length = acc2.trace.length := by
  intro fuel
  induction fuel with
  | zero => intro F img acc io e acc2 hinv heq; cases heq
  | succ fuel ih =>
    intro F img acc io e acc2 hinv heq
    cases rbs <;> cases F <;>
    · simp only [carveLoop, if_true, Bool.false_eq_true, if_false] at heq
      split at heq
      · split at heq
        · simp only [Option.some.injEq, Prod.mk.injEq] at heq
          obtain ⟨rfl, rfl, rfl⟩ := heq
          simpa [Acc.seamFail] using hinv
        · split at heq
          · cases heq
          · rename_i hrec
            simp only [Option.some.injEq, Prod.mk.injEq] at heq
            obtain ⟨rfl, rfl, rfl⟩ := heq
            simpa [Acc.bump] using ih _ _ _ _ _ _ (by simp [Acc.carve, hinv]) hrec
      · simp only [Option.some.injEq, Prod.mk.injEq] at heq
        obtain ⟨rfl, rfl, rfl⟩ := heq
        simpa [Acc.bump] using hinv

lemma horizPhase_frames {rbs : Bool} {fuel : Nat} {nw : Int} {c2 : Int × Int}
    {img2 : Img} {io1 : Option Img} {acc1 : Acc Img}
    (h : horizPhase ops p rbs oracle fuel nw c2 img2 = some (io1, acc1)) :
    acc1.frames.length = acc1.trace.length := by
  simp only [horizPhase] at h
  split at h
  · split at h
    · cases h
    · rename_i hrec
      simp only [Option.some.injEq, Prod.mk.injEq] at h
      obtain ⟨rfl, rfl⟩ := h
      exact carve_frames_length _ _ _ _ _ _ _ (by simp) hrec
  · simp only [Option.some.injEq, Prod.mk.injEq] at h
    obtain ⟨rfl, rfl⟩ := h
    simp

lemma vertPhase_frames {rbs : Bool} {fuel : Nat} {nh : Int} {c2 : Int × Int}
    {io1 : Option Img} {acc1 : Acc Img} {io2 : Option Img} {acc2 : Acc Img}
    (hinv : acc1.frames.length = acc1.trace.length)
    (h : vertPhase ops p rbs oracle fuel nh c2 io1 acc1 = some (io2, acc2)) :
    acc2.frames.length = acc2.trace.length := by
  simp only [vertPhase] at h
  split at h
  · split at h
    · simp only [Option.some.injEq, Prod.mk.injEq] at h
      obtain ⟨rfl, rfl⟩ := h
      exact hinv
    · split at h
      · cases h
      · rename_i hrec
        simp only [Option.some.injEq, Prod.mk.injEq] at h
        obtain ⟨rfl, rfl⟩ := h
        exact carve_frames_length _ _ _ _ _ _ _ hinv hrec
  · simp only [Option.some.injEq, Prod.mk.injEq] at h
    obtain ⟨rfl, rfl⟩ := h
    exact hinv

/-- All early returns of the `Percentage || Square` block carry the untouched
(empty) carve bookkeeping. -/
lemma resolveOpts_early_acc {fuel : Nat} {rbs : Bool} {p0 : Processor}
    {c0 : Int × Int} {img0 : Img} {o : ResizeOut Img}
    (h : resolveOpts ops fuel rbs p0 c0 img0 = some (Resolved.early o)) :
    o.acc = ⟨0, [], [], 0⟩ := by
  simp only [resolveOpts] at h
  split at h
  · split at h
    · simp only [Option.some.injEq, Resolved.early.injEq] at h
      rw [← h]
    · split at h
      · cases h
      · simp only [Option.some.injEq, Resolved.early.injEq] at h
        rw [← h]
      · split at h
        · split at h
          · simp only [Option.some.injEq, Resolved.early.injEq] at h
            rw [← h]
          · simp only [Option.some.injEq] at h
            cases h
        · simp only [Option.some.injEq] at h
          cases h
  · simp only [Option.some.injEq] at h
    cases h

/-- Whatever `Resize` returns keeps one recorded frame per carve iteration. -/
lemma Resize_frames {fuel : Nat} {gs : Globals} {img : Img} {out : ResizeOut Img}
    (h : Resize ops oracle fuel p gs img = some out) :
    out.acc.frames.length = out.acc.trace.length := by
  simp only [Resize] at h
  split at h
  · cases h
  · rename_i o1 hro
    simp only [Option.some.injEq] at h
    subst h
    rw [resolveOpts_early_acc hro]
    rfl
  · rename_i p1 c1 img1 hro
    split at h
    · cases h
    · rename_i pr hps
      split at h
      · cases h
      · rename_i io1 acc1 hH
        split at h
        · cases h
        · rename_i io2 acc2 hV
          simp only [Option.some.injEq] at h
          rw [← h]
          exact vertPhase_frames (horizPhase_frames hH) hV

/-- In percentage mode on a non-square source, every outcome of the options
block carries the processor with `NewWidth`/`NewHeight` overwritten by
`percentResolve`: the receiver's targets are replaced by resolved absolute
pixel values. -/
lemma resolveOpts_pct_proc {fuel : Nat} {rbs : Bool} {p0 : Processor}
    {c0 : Int × Int} {img0 : Img} {r : Resolved Img}
    (hpct : p0.Percentage = true) (hsq : p0.Square = false)
    (hne : c0.1 ≠ c0.2)
    (h : resolveOpts ops fuel rbs p0 c0 img0 = some r) :
    r.procOf = (percentResolve p0 c0).1 := by
  simp only [resolveOpts] at h
  split at h
  · split at h
    · rename_i hc
      exact absurd hc (by omega)
    · split at h
      · cases h
      · rename_i e hsc
        rw [if_neg (by simp [hsq])] at hsc
        simp only [Option.some.injEq] at hsc
        cases hsc
      · rename_i p1 c1 img1 hsc
        rw [if_neg (by simp [hsq])] at hsc
        simp only [Option.some.injEq, Sum.inl.injEq, Prod.mk.injEq] at hsc
        obtain ⟨rfl, rfl, rfl⟩ := hsc
        split at h
        · simp only [Option.some.injEq] at h
          rw [← h]
          rfl
        · simp only [Option.some.injEq] at h
          rw [← h]
          rfl
  · rename_i hcond
    exact absurd (Or.inl hpct) hcond

end FrameLemmas

section GlobalsLemmas

variable {Img : Type} {ops : CarverOps Img} {p : Processor} {oracle : Nat → Bool}

/-- With no target height the horizontal closures never read
`resizeBothSide`: the recursion is identical for any two values of the
flag. -/
lemma carveH_rbs (hth : p.NewHeight = 0) (rbs1 rbs2 : Bool) :
    ∀ fuel : Nat, ∀ (F : Fn) (img : Img) (acc : Acc Img),
      (F = Fn.shrinkH ∨ F = Fn.enlargeH) →
      carveLoop ops p rbs1 oracle fuel F img acc =
        carveLoop ops p rbs2 oracle fuel F img acc := by
  intro fuel
  induction fuel with
  | zero => intro F img acc hF; rfl
  | succ fuel ih =>
    intro F img acc hF
    have hguard : ¬(0 < p.NewHeight ∧ p.NewHeight ≠ ops.height img) := by omega
    rcases hF with rfl | rfl
    · simp only [carveLoop, if_neg hguard]
      rw [ih Fn.shrinkH (ops.removeSeam img) (acc.carve Axis.horiz (ops.removeSeam img))
        (Or.inl rfl)]
    · simp only [carveLoop, if_neg hguard]
      rw [ih Fn.enlargeH (ops.addSeam img) (acc.carve Axis.horiz (ops.addSeam img))
        (Or.inr rfl)]

/-- With no target width, running a vertical closure with `resizeBothSide =
true` is the same as running it with `false` on the pre-rotated buffer and
rotating the result back: the per-step rotations of the `true` path cancel
against the top level's single rotation pair of the `false` path. -/
lemma carveV_conj (L : CarverLaws ops) (htw : p.NewWidth = 0) :
    ∀ fuel : Nat, ∀ (F : Fn) (img : Img) (acc : Acc Img),
      (F = Fn.shrinkV ∨ F = Fn.enlargeV) →
      carveLoop ops p true oracle fuel F img acc =
        (carveLoop ops p false oracle fuel F (ops.rot90 img) acc).map
          (fun r => (r.1.map ops.rot270, r.2.1, r.2.2)) := by
  intro fuel
  induction fuel with
  | zero => intro F img acc hF; rfl
  | succ fuel ih =>
    intro F img acc hF
    have hguard : ¬(0 < p.NewWidth ∧ p.NewWidth ≠ ops.width img) := by omega
    have hguard2 : ¬(0 < p.NewWidth ∧ p.NewWidth ≠ ops.height (ops.rot90 img)) := by omega
    rcases hF with rfl | rfl
    · by_cases hlt : p.NewHeight < ops.height img
      · by_cases ho : oracle acc.seamIdx = true
        · simp only [carveLoop, if_true, Bool.false_eq_true, if_false, L.rot90_width,
            if_pos hlt, ho]
          simp
        · have ho2 : oracle acc.seamIdx = false := by simpa using ho
          have hrec := ih Fn.shrinkV (ops.rot270 (ops.removeSeam (ops.rot90 img)))
            (acc.carve Axis.vert (ops.removeSeam (ops.rot90 img))) (Or.inl rfl)
          rw [L.rot90_rot270] at hrec
          simp only [carveLoop, if_true, Bool.false_eq_true, if_false, L.rot90_width,
            if_pos hlt, ho2, if_neg hguard, if_neg hguard2, hrec]
          rcases hx : carveLoop ops p false oracle fuel Fn.shrinkV
              (ops.removeSeam (ops.rot90 img))
              (acc.carve Axis.vert (ops.removeSeam (ops.rot90 img))) with _ | ⟨io, e, a⟩ <;>
            simp [hx]
      · simp only [carveLoop, if_true, Bool.false_eq_true, if_false, L.rot90_width,
          if_neg hlt]
        simp
    · by_cases hlt : ops.height img < p.NewHeight
      · by_cases ho : oracle acc.seamIdx = true
        · simp only [carveLoop, if_true, Bool.false_eq_true, if_false, L.rot90_width,
            if_pos hlt, ho]
          simp
        · have ho2 : oracle acc.seamIdx = false := by simpa using ho
          have hrec := ih Fn.enlargeV (ops.rot270 (ops.addSeam (ops.rot90 img)))
            (acc.carve Axis.vert (ops.addSeam (ops.rot90 img))) (Or.inr rfl)
          rw [L.rot90_rot270] at hrec
          simp only [carveLoop, if_true, Bool.false_eq_true, if_false, L.rot90_width,
            if_pos hlt, ho2, if_neg hguard, if_neg hguard2, hrec]
          rcases hx : carveLoop ops p false oracle fuel Fn.enlargeV
              (ops.addSeam (ops.rot90 img))
              (acc.carve Axis.vert (ops.addSeam (ops.rot90 img))) with _ | ⟨io, e, a⟩ <;>
            simp [hx]
      · simp only [carveLoop, if_true, Bool.false_eq_true, if_false, L.rot90_width,
          if_neg hlt]
        simp

/-- The horizontal phase never reads `resizeBothSide` when the target height
is zero. -/
lemma horizPhase_rbs (hth : p.NewHeight = 0) (rbs1 rbs2 : Bool) {fuel : Nat}
    {nw : Int} {c2 : Int × Int} {img2 : Img} :
    horizPhase ops p rbs1 oracle fuel nw c2 img2 =
      horizPhase ops p rbs2 oracle fuel nw c2 img2 := by
  simp only [horizPhase]
  rw [carveH_rbs hth rbs1 rbs2 fuel
    (if c2.1 < p.NewWidth then Fn.enlargeH else Fn.shrinkH) img2 ⟨0, [], [], 0⟩
    (by split_ifs with h; exacts [Or.inr rfl, Or.inl rfl])]

/-- The vertical phase gives identical results for any two `resizeBothSide`
values when the target width is zero: the rotation conjugation cancels. -/
lemma vertPhase_rbs (L : CarverLaws ops) (htw : p.NewWidth = 0) (rbs1 rbs2 : Bool)
    {fuel : Nat} {nh : Int} {c2 : Int × Int} {io1 : Option Img} {acc1 : Acc Img} :
    vertPhase ops p rbs1 oracle fuel nh c2 io1 acc1 =
      vertPhase ops p rbs2 oracle fuel nh c2 io1 acc1 := by
  suffices hs : ∀ rbs, vertPhase ops p rbs oracle fuel nh c2 io1 acc1 =
      vertPhase ops p false oracle fuel nh c2 io1 acc1 by
    rw [hs rbs1, hs rbs2]
  intro rbs
  cases rbs
  · rfl
  · simp only [vertPhase, if_true, Bool.false_eq_true, if_false]
    split
    · have hconj := fun (i : Img) => @carveV_conj Img ops p oracle L htw fuel
        (if c2.2 < p.NewHeight then Fn.enlargeV else Fn.shrinkV) i acc1
        (by split_ifs with h; exacts [Or.inr rfl, Or.inl rfl])
      simp only [hconj]
      cases io1 with
      | none => rfl
      | some imgA =>
        rcases hx : carveLoop ops p false oracle fuel
            (if c2.2 < p.NewHeight then Fn.enlargeV else Fn.shrinkV)
            (ops.rot90 imgA) acc1 with _ | ⟨io, e, a⟩ <;> simp [hx]
    · rfl

/-- The options block reports the same observation whatever `resizeBothSide`
value it is handed: the flag is only copied into the (never read back)
globals field of an early return. -/
lemma resolveOpts_gs {fuel : Nat} (rbs1 rbs2 : Bool) (p0 : Processor)
    (c0 : Int × Int) (img0 : Img) :
    (resolveOpts ops fuel rbs1 p0 c0 img0).map Resolved.obs =
      (resolveOpts ops fuel rbs2 p0 c0 img0).map Resolved.obs := by
  by_cases h1 : p0.Percentage = true ∨ p0.Square = true
  · by_cases h2 : p0.Percentage = true ∧ c0.1 - c0.2 = 0 ∧ c0.2 - c0.1 = 0
    · simp [resolveOpts, if_pos h1, if_pos h2, Resolved.obs, ResizeOut.obs]
    · by_cases h3 : p0.Square = true
      · by_cases h4 : p0.NewWidth ≠ 0 ∧ p0.NewHeight ≠ 0
        · rcases hcf : calculateFitness ops
              ⟨minint p0.NewWidth p0.NewHeight, minint p0.NewWidth p0.NewHeight,
                p0.Percentage, p0.Square⟩ fuel img0 c0 with _ | ⟨newImg, c1⟩
          · simp [resolveOpts, if_pos h1, if_neg h2, if_pos h3, if_pos h4, hcf]
          · by_cases h5 : p0.Percentage = true
            · simp only [resolveOpts, if_pos h1, if_neg h2, if_pos h3, if_pos h4, hcf,
                if_pos h5]
              split <;> simp [Resolved.obs, ResizeOut.obs]
            · simp [resolveOpts, if_pos h1, if_neg h2, if_pos h3, if_pos h4, hcf,
                if_neg h5]
        · simp [resolveOpts, if_pos h1, if_neg h2, if_pos h3, if_neg h4, Resolved.obs,
            ResizeOut.obs]
      · have h5 : p0.Percentage = true := h1.resolve_right h3
        simp only [resolveOpts, if_pos h1, if_neg h2, if_neg h3, if_pos h5]
        split <;> simp [Resolved.obs, ResizeOut.obs]
  · simp [resolveOpts, if_neg h1]

/-- A zero target survives the options block into the carve continuation:
the percentage branch keeps it zero and the square branch cannot reach the
continuation with a zero target. -/
lemma resolveOpts_carve_zero {fuel : Nat} {rbs : Bool} {p0 : Processor}
    {c0 : Int × Int} {img0 : Img} {p1 : Processor} {c1 : Int × Int} {img1 : Img}
    (h : resolveOpts ops fuel rbs p0 c0 img0 = some (Resolved.carve p1 c1 img1)) :
    (p0.NewWidth = 0 → p1.NewWidth = 0) ∧ (p0.NewHeight = 0 → p1.NewHeight = 0) := by
  simp only [resolveOpts] at h
  split at h
  · split at h
    · simp only [Option.some.injEq] at h
      cases h
    · split at h
      · cases h
      · simp only [Option.some.injEq] at h
        cases h
      · rename_i pa ca ia hsc
        split at hsc
        · split at hsc
          · rename_i hb
            split at hsc
            · cases hsc
            · simp only [Option.some.injEq, Sum.inl.injEq, Prod.mk.injEq] at hsc
              obtain ⟨rfl, rfl, rfl⟩ := hsc
              constructor
              · intro hw0
                exact absurd hw0 (by simpa using hb.1)
              · intro hh0
                exact absurd hh0 (by simpa using hb.2)
          · simp only [Option.some.injEq] at hsc
            cases hsc
        · simp only [Option.some.injEq, Sum.inl.injEq, Prod.mk.injEq] at hsc
          obtain ⟨rfl, rfl, rfl⟩ := hsc
          split at h
          · split at h
            · simp only [Option.some.injEq] at h
              cases h
            · simp only [Option.some.injEq, Resolved.carve.injEq] at h
              obtain ⟨h, rfl, rfl⟩ := h
              rw [← h]
              constructor
              · intro hw0
                simp [percentResolve, hw0]
              · intro hh0
                simp [percentResolve, hh0]
          · simp only [Option.some.injEq, Resolved.carve.injEq] at h
            obtain ⟨rfl, rfl, rfl⟩ := h
            exact ⟨fun hw0 => hw0, fun hh0 => hh0⟩
  · simp only [Option.some.injEq, Resolved.carve.injEq] at h
    obtain ⟨rfl, rfl, rfl⟩ := h
    exact ⟨fun hw0 => hw0, fun hh0 => hh0⟩

/-- `Resize` reports the same observation for any two incoming globals: when
both targets are non-zero the flag is overwritten before use, and otherwise
the only phase that could read it is insensitive to it. -/
lemma Resize_gs (L : CarverLaws ops) {fuel : Nat} (gs1 gs2 : Globals) (img : Img) :
    (Resize ops oracle fuel p gs1 img).map ResizeOut.obs =
      (Resize ops oracle fuel p gs2 img).map ResizeOut.obs := by
  by_cases hboth : p.NewWidth ≠ 0 ∧ p.NewHeight ≠ 0
  · simp only [Resize, if_pos hboth]
  · simp only [Resize, if_neg hboth]
    have hro := @resolveOpts_gs Img ops fuel gs1.resizeBothSide
      gs2.resizeBothSide p (ops.width img, ops.height img) img
    rcases h1 : resolveOpts ops fuel gs1.resizeBothSide p
        (ops.width img, ops.height img) img with _ | r1
    · rcases h2 : resolveOpts ops fuel gs2.resizeBothSide p
          (ops.width img, ops.height img) img with _ | r2
      · simp [h1, h2]
      · rw [h1, h2] at hro
        simp at hro
    · rcases h2 : resolveOpts ops fuel gs2.resizeBothSide p
          (ops.width img, ops.height img) img with _ | r2
      · rw [h1, h2] at hro
        simp at hro
      · rw [h1, h2] at hro
        simp at hro
        cases r1 with
        | early o1 =>
          cases r2 with
          | early o2 =>
            simp only [Resolved.obs, Option.some.injEq, Sum.inl.injEq, ResizeOut.obs,
              Prod.mk.injEq] at hro
            obtain ⟨hi, he, hp, hc, ha⟩ := hro
            simp [h1, h2, ResizeOut.obs, hi, he, hp, hc, ha]
          | carve p2 c2 i2 =>
            simp [Resolved.obs] at hro
        | carve p1 c1 i1 =>
          cases r2 with
          | early o2 =>
            simp [Resolved.obs] at hro
          | carve p2 c2 i2 =>
            simp only [Resolved.obs, Option.some.injEq, Sum.inr.injEq,
              Prod.mk.injEq] at hro
            obtain ⟨rfl, rfl, rfl⟩ := hro
            have hz := resolveOpts_carve_zero h1
            simp only [h1, h2]
            rcases hps : prescaleStep ops fuel p1 c1 i1 with _ | ⟨c2', img2'⟩
            · simp [hps]
            · simp only [hps]
              by_cases htw0 : p.NewWidth = 0
              · have hnw : (if p.NewWidth = 0 then p.NewWidth
                    else if ops.width img < p.NewWidth then
                      p.NewWidth - (p.NewWidth - (p.NewWidth - ops.width img))
                    else ops.width img - (ops.width img - (ops.width img - p.NewWidth))) =
                    p.NewWidth := if_pos htw0
                have hH := fun (rbs : Bool) => @horizPhase_skip Img ops p1 oracle rbs fuel
                  p.NewWidth c2' img2' (by omega)
                have hvp := fun (fl : Nat) (nh : Int) (c2a : Int × Int)
                    (io1 : Option Img) (acc1 : Acc Img) =>
                  @vertPhase_rbs Img ops p1 oracle L (hz.1 htw0) gs1.resizeBothSide
                    gs2.resizeBothSide fl nh c2a io1 acc1
                simp only [hnw, hH, hvp]
                rcases hv2 : vertPhase ops p1 gs2.resizeBothSide oracle fuel
                    (if p.NewHeight = 0 then p.NewHeight
                     else if ops.height img < p.NewHeight then
                       p.NewHeight - (p.NewHeight - (p.NewHeight - ops.height img))
                     else ops.height img - (ops.height img - (ops.height img - p.NewHeight)))
                    c2' (some img2') ⟨0, [], [], 0⟩ with _ | ⟨io2, acc2⟩
                · simp [hv2]
                · simp [hv2, ResizeOut.obs]
              · have hth0 : p.NewHeight = 0 := by
                  rcases Decidable.em (p.NewHeight = 0) with h0 | h0
                  · exact h0
                  · exact absurd ⟨htw0, h0⟩ hboth
                have hnh : (if p.NewHeight = 0 then p.NewHeight
                    else if ops.height img < p.NewHeight then
                      p.NewHeight - (p.NewHeight - (p.NewHeight - ops.height img))
                    else ops.height img - (ops.height img - (ops.height img - p.NewHeight))) =
                    p.NewHeight := if_pos hth0
                have hV := fun (rbs : Bool) (io1 : Option Img) (acc1 : Acc Img) =>
                  @vertPhase_skip Img ops p1 oracle rbs fuel p.NewHeight c2' io1 acc1
                    (by omega)
                have hhp := fun (fl : Nat) (nw : Int) (c2a : Int × Int) (i2 : Img) =>
                  @horizPhase_rbs Img ops p1 oracle (hz.2 hth0) gs1.resizeBothSide
                    gs2.resizeBothSide fl nw c2a i2
                simp only [hnh, hhp, hV]
                rcases hh2 : horizPhase ops p1 gs2.resizeBothSide oracle fuel
                    (if p.NewWidth = 0 then p.NewWidth
                     else if ops.width img < p.NewWidth then
                       p.NewWidth - (p.NewWidth - (p.NewWidth - ops.width img))
                     else ops.width img - (ops.width img - (ops.width img - p.NewWidth)))
                    c2' img2' with _ | ⟨io1, acc1⟩
                · simp [hh2]
                · simp [hh2, hV, ResizeOut.obs]

end GlobalsLemmas

/-- C1.  Counterexample: for the valid percentage configuration `NewWidth=25,
NewHeight=50` on a 200×100 source, the spec-resolved targets are
Tw = 200·25/100 = 50 and Th = 100·50/100 = 50, but `Resize` succeeds with a
150×50 image: the code resolves a percentage to the complement
`W - int(W·pct/100)` (it shrinks *by* the percentage), not to `W·pct/100`. -/
theorem C1_shape_percentage_counterexample :
    (Resize dimOps noSeamFailure 60 ⟨25, 50, true, false⟩ ⟨false⟩ ((200 : Int), 100)).map
        (fun o => (o.img, o.err)) = some (some ((150 : Int), 50), none) ∧
    specTargetW ⟨25, 50, true, false⟩ 200 100 = 50 ∧
    specTargetH ⟨25, 50, true, false⟩ 200 100 = 50 ∧
    (Resize dimOps noSeamFailure 60 ⟨25, 50, true, false⟩ ⟨false⟩ ((200 : Int), 100)).map
        (fun o => o.img) ≠
      some (some (specTargetW ⟨25, 50, true, false⟩ 200 100,
        specTargetH ⟨25, 50, true, false⟩ 200 100)) := by
  decide

/-- C2.  The percentage enlargement check is bypassed for square sources: on a
50×50 image with `Percentage=true, NewWidth=200` (scenario S6 of the spec),
the square-image shortcut of `Resize` returns the 50×50 image as a success
with no error, although the spec (and the shrink-only check the code itself
performs three lines later for non-square images, shown in the second
conjunct) requires an InvalidRequest failure. -/
theorem C2_percentage_square_shortcut_bypasses_check :
    (Resize dimOps noSeamFailure 60 ⟨200, 0, true, false⟩ ⟨false⟩ ((50 : Int), 50)).map
        (fun o => (o.img, o.err)) = some (some ((50 : Int), 50), none) ∧
    (Resize dimOps noSeamFailure 60 ⟨200, 0, true, false⟩ ⟨false⟩ ((50 : Int), 40)).map
        (fun o => (o.img, o.err)) = some (none, some ResizeErr.percentEnlarge) := by
  decide

/-- C3.  Carve errors do not propagate out of `Resize`: when the very first
seam computation fails (oracle failing at index 0) while shrinking a 5×5
image to width 3, the carve closure itself returns the error (first
conjunct), but `Resize` assigns its result with `img, _ = shrinkHorizFn(c,
img)` and ends with `return img, nil`, so the caller receives a nil image and
a nil error (second conjunct). -/
theorem C3_carve_error_swallowed :
    carveLoop dimOps ⟨3, 0, false, false⟩ false (fun _ => true) 60 Fn.shrinkH
        ((5 : Int), 5) ⟨0, [], [], 0⟩ = some (none, some (), ⟨0, [], [], 1⟩) ∧
    (Resize dimOps (fun _ => true) 60 ⟨3, 0, false, false⟩ ⟨false⟩ ((5 : Int), 5)).map
        (fun o => (o.img, o.err)) = some (none, none) := by
  decide

/-- C4.  Determinism across calls, for runs whose seam computations all
succeed: in the embedding, `Process` is a function of its arguments, and the
only state that survives between calls — the package-level globals
(`resizeBothSide`, and `isGif`, which no code path reads back) — does not
influence the written output: for any two global states the result of
`Process` is identical.  Hence identical (image, config) inputs produce
identical output bytes regardless of which `Resize` calls ran earlier in the
process.  The hypothesis that the seam oracle never fails is essential and
deliberate: on a failing seam in a height-only resize the Go program's
outcome genuinely depends on the stale flag (`resizeBothSide = true` returns
the nil image with a nil error, while `resizeBothSide = false` panics at
process.go line 355 rotating that nil image), a divergence between two
failure modes that the embedding's `vertPhase` does not separate — so
nothing is asserted here about failing runs. -/
theorem C4_process_globals_independent {Img : Type} (ops : CarverOps Img)
    (L : CarverLaws ops) (oracle : Nat → Bool) (hor : ∀ n, oracle n = false)
    (fuel : Nat) (p : Processor)
    (img : Img) (d : Wdest) (gs1 gs2 : Globals) :
    Process ops oracle fuel p gs1 img d = Process ops oracle fuel p gs2 img d := by
  have hobs := @Resize_gs Img ops p oracle L fuel gs1 gs2 img
  rcases h1 : Resize ops oracle fuel p gs1 img with _ | o1
  · rcases h2 : Resize ops oracle fuel p gs2 img with _ | o2
    · simp only [Process, h1, h2]
    · rw [h1, h2] at hobs
      simp at hobs
  · rcases h2 : Resize ops oracle fuel p gs2 img with _ | o2
    · rw [h1, h2] at hobs
      simp at hobs
    · rw [h1, h2] at hobs
      simp at hobs
      simp only [ResizeOut.obs, Prod.mk.injEq] at hobs
      obtain ⟨hi, he, hp2, hc, ha⟩ := hobs
      simp only [Process, h1, h2, hi, he, ha]

/-- Witness for `C4_process_globals_independent`: the stale
`resizeBothSide = true` left by an earlier both-axes call does not change the
bytes written for a width-only shrink. -/
theorem C4_process_globals_independent_witness :
    Process dimOps noSeamFailure 60 ⟨8, 0, false, false⟩ ⟨true⟩ ((10 : Int), 10)
        (Wdest.file ".png") =
      Process dimOps noSeamFailure 60 ⟨8, 0, false, false⟩ ⟨false⟩ ((10 : Int), 10)
        (Wdest.file ".png") :=
  C4_process_globals_independent dimOps dimLaws noSeamFailure (fun _ => rfl) 60
    ⟨8, 0, false, false⟩ ((10 : Int), 10) (Wdest.file ".png") ⟨true⟩ ⟨false⟩

/-- C5.  Counterexample: a file destination with the unknown extension
`.tiff` does not encode as JPEG; it takes the `default` branch of the switch
and `Process` fails with UnsupportedFormat, while an empty extension does
encode as JPEG at quality 100. -/
theorem C5_unknown_extension_counterexample :
    Process dimOps noSeamFailure 60 ⟨8, 0, false, false⟩ ⟨false⟩ ((10 : Int), 10)
        (Wdest.file ".tiff") = some (ProcessResult.failed ProcessErr.unsupportedFormat) ∧
    Process dimOps noSeamFailure 60 ⟨8, 0, false, false⟩ ⟨false⟩ ((10 : Int), 10)
        (Wdest.file "") =
      some (ProcessResult.written ⟨Encoding.jpeg 100, some ((8 : Int), 10), []⟩) ∧
    some (ProcessResult.failed ProcessErr.unsupportedFormat) ≠
      (Process dimOps noSeamFailure 60 ⟨8, 0, false, false⟩ ⟨false⟩ ((10 : Int), 10)
        (Wdest.file "")) := by
  decide

/-- C5 (amended: an unknown non-empty extension is rejected with
UnsupportedFormat instead of encoding as JPEG; the "unknown maps to JPEG"
half of the claim is refuted by `C5_unknown_extension_counterexample`).  For
a file destination whose `Resize` returns without error, `Process` dispatches
on the extension: empty, `.jpg` and `.jpeg` encode JPEG at quality 100,
`.png` PNG, `.bmp` BMP, `.gif` the animation assembled from the recorded
frames with exactly one frame per intermediate carve iteration (as many
frames as trace entries), and every other extension fails with
UnsupportedFormat. -/
theorem C5_dispatch_and_frames {Img : Type} (ops : CarverOps Img)
    (oracle : Nat → Bool) (fuel : Nat) (p : Processor) (gs : Globals) (img : Img)
    (out : ResizeOut Img)
    (hres : Resize ops oracle fuel p gs img = some out) (hok : out.err = none) :
    (∀ ext, ¬(ext = "" ∨ ext = ".jpg" ∨ ext = ".jpeg") → ¬ext = ".png" →
      ¬ext = ".bmp" → ¬ext = ".gif" →
      Process ops oracle fuel p gs img (Wdest.file ext) =
        some (ProcessResult.failed ProcessErr.unsupportedFormat)) ∧
    (∀ ext, (ext = "" ∨ ext = ".jpg" ∨ ext = ".jpeg") →
      Process ops oracle fuel p gs img (Wdest.file ext) =
        some (ProcessResult.written ⟨Encoding.jpeg 100, out.img, []⟩)) ∧
    Process ops oracle fuel p gs img (Wdest.file ".png") =
      some (ProcessResult.written ⟨Encoding.png, out.img, []⟩) ∧
    Process ops oracle fuel p gs img (Wdest.file ".bmp") =
      some (ProcessResult.written ⟨Encoding.bmp, out.img, []⟩) ∧
    Process ops oracle fuel p gs img (Wdest.file ".gif") =
      some (ProcessResult.written ⟨Encoding.gif, none, out.acc.frames⟩) ∧
    out.acc.frames.length = out.acc.trace.length := by
  refine ⟨?_, ?_, ?_, ?_, ?_, Resize_frames hres⟩
  · intro ext h1 h2 h3 h4
    simp only [Process]
    rw [if_neg h1, if_neg h2, if_neg h3, if_neg h4]
  · intro ext h1
    simp only [Process, hres, hok]
    rw [if_pos h1]
  · simp only [Process, hres, hok]
    simp
  · simp only [Process, hres, hok]
    simp
  · simp only [Process, hres, hok]
    simp

/-- Witness for `C5_dispatch_and_frames`: shrinking 5x5 to width 3 in the
dimensions model, then writing to `.png` and `.gif` destinations. -/
theorem C5_dispatch_and_frames_witness :
    (Process dimOps noSeamFailure 60 ⟨3, 0, false, false⟩ ⟨false⟩ ((5 : Int), 5)
        (Wdest.file ".png") =
      some (ProcessResult.written ⟨Encoding.png, some ((3 : Int), 5), []⟩)) ∧
    (Process dimOps noSeamFailure 60 ⟨3, 0, false, false⟩ ⟨false⟩ ((5 : Int), 5)
        (Wdest.file ".gif") =
      some (ProcessResult.written
        ⟨Encoding.gif, none, [(((4 : Int), (5 : Int)), 0), (((3 : Int), (5 : Int)), 0)]⟩)) ∧
    ([(((4 : Int), (5 : Int)), (0 : Int)), (((3 : Int), (5 : Int)), 0)].length =
      [Axis.horiz, Axis.horiz].length) :=
  ⟨(C5_dispatch_and_frames dimOps noSeamFailure 60 ⟨3, 0, false, false⟩ ⟨false⟩
      ((5 : Int), 5)
      ⟨some ((3 : Int), 5), none, ⟨3, 0, false, false⟩, ((5 : Int), 5), ⟨false⟩,
        ⟨3, [Axis.horiz, Axis.horiz], [(((4 : Int), (5 : Int)), 0), (((3 : Int), (5 : Int)), 0)], 2⟩⟩
      (by decide) (by decide)).2.2.1,
   (C5_dispatch_and_frames dimOps noSeamFailure 60 ⟨3, 0, false, false⟩ ⟨false⟩
      ((5 : Int), 5)
      ⟨some ((3 : Int), 5), none, ⟨3, 0, false, false⟩, ((5 : Int), 5), ⟨false⟩,
        ⟨3, [Axis.horiz, Axis.horiz], [(((4 : Int), (5 : Int)), 0), (((3 : Int), (5 : Int)), 0)], 2⟩⟩
      (by decide) (by decide)).2.2.2.2.1,
   (C5_dispatch_and_frames dimOps noSeamFailure 60 ⟨3, 0, false, false⟩ ⟨false⟩
      ((5 : Int), 5)
      ⟨some ((3 : Int), 5), none, ⟨3, 0, false, false⟩, ((5 : Int), 5), ⟨false⟩,
        ⟨3, [Axis.horiz, Axis.horiz], [(((4 : Int), (5 : Int)), 0), (((3 : Int), (5 : Int)), 0)], 2⟩⟩
      (by decide) (by decide)).2.2.2.2.2⟩

/-- C6.  Counterexample: enlarging a 10×10 image to 15×11 (deltas 5 and 1),
the spec's policy "carve the axis with the larger remaining delta, ties
prefer horizontal" would carve `h,h,h,h,h,v`, but the code's carve sequence
is the strict alternation `h,v,h,h,h,h`: after the first horizontal seam the
driver hands over to the vertical closure because the height differs,
regardless of the deltas. -/
theorem C6_interleaving_counterexample :
    (Resize dimOps noSeamFailure 60 ⟨15, 11, false, false⟩ ⟨false⟩ ((10 : Int), 10)).map
        (fun o => o.acc.trace) =
      some [Axis.horiz, Axis.vert, Axis.horiz, Axis.horiz, Axis.horiz, Axis.horiz] ∧
    specInterleave 15 11 20 ((10 : Int), 10) =
      [Axis.horiz, Axis.horiz, Axis.horiz, Axis.horiz, Axis.horiz, Axis.vert] ∧
    (Resize dimOps noSeamFailure 60 ⟨15, 11, false, false⟩ ⟨false⟩ ((10 : Int), 10)).map
        (fun o => o.acc.trace) ≠ some (specInterleave 15 11 20 ((10 : Int), 10)) := by
  decide

/-- C6 (amended: the interleaving is strict alternation, not largest-delta
first).  When both axes must change and both are enlarged (with the
`resizeBothSide` flag the driver sets in that situation, and a seam oracle
that always succeeds), the carve recursion terminates and its recorded trace
is exactly `altEnlargeTrace`: after every seam the driver switches to the
other axis whenever that axis has not yet reached its target, regardless of
which remaining delta is larger, and an axis that reaches its target drops
out.  The original per-step largest-delta policy is refuted by
`C6_interleaving_counterexample`. -/
theorem C6_strict_alternation {Img : Type} (ops : CarverOps Img) (L : CarverLaws ops)
    (oracle : Nat → Bool) (hor : ∀ n, oracle n = false) (p : Processor)
    (htw : 0 < p.NewWidth) (hth : 0 < p.NewHeight) (img : Img)
    (hwle : ops.width img ≤ p.NewWidth) (hhle : ops.height img ≤ p.NewHeight)
    (fuel : Nat) (hfuel : bothDist ops p img + 1 ≤ fuel) :
    ∃ img2 acc2,
      carveLoop ops p true oracle fuel Fn.enlargeH img ⟨0, [], [], 0⟩ =
        some (some img2, none, acc2) ∧
      acc2.trace = altEnlargeTrace p.NewWidth p.NewHeight fuel true
        (ops.width img, ops.height img) := by
  obtain ⟨img2, acc2, heq, htr⟩ := enlarge_trace L hor htw hth fuel Fn.enlargeH true img
    ⟨0, [], [], 0⟩ (Or.inl ⟨rfl, rfl⟩) hwle hhle hfuel
  exact ⟨img2, acc2, heq, by simpa using htr⟩

/-- Witness for `C6_strict_alternation`: enlarging 10x10 to 15x11 in the
dimensions model. -/
theorem C6_strict_alternation_witness :
    ∃ img2 acc2,
      carveLoop dimOps ⟨15, 11, false, false⟩ true noSeamFailure 7 Fn.enlargeH
        ((10 : Int), 10) ⟨0, [], [], 0⟩ = some (some img2, none, acc2) ∧
      acc2.trace = altEnlargeTrace 15 11 7 true
        (dimOps.width ((10 : Int), 10), dimOps.height ((10 : Int), 10)) :=
  C6_strict_alternation dimOps dimLaws noSeamFailure (fun _ => rfl)
    ⟨15, 11, false, false⟩ (by decide) (by decide) ((10 : Int), 10)
    (by decide) (by decide) 7 (by decide)

/-- C7.  With the square option and both targets non-zero the output need not
be a square of side `min(NewWidth, NewHeight)`: for a 120×80 source with
targets (120, 60) the code returns a 90×60 image (the top-level `newWidth`
delta, computed from the pre-resolution target 120, is zero, so no horizontal
carving runs after the square rescale).  The other conjuncts record that the
claim's own example (targets (60, 60) on 120×80) does produce 60×60, that a
portrait 80×120 source with targets (60, 60) produces 40×40 instead of 60×60,
and that a zero target is rejected as the claim states. -/
theorem C7_square_output_not_square :
    (Resize dimOps noSeamFailure 60 ⟨120, 60, false, true⟩ ⟨false⟩ ((120 : Int), 80)).map
        (fun o => (o.img, o.err)) = some (some ((90 : Int), 60), none) ∧
    minint 120 60 = 60 ∧
    (Resize dimOps noSeamFailure 60 ⟨60, 60, false, true⟩ ⟨false⟩ ((120 : Int), 80)).map
        (fun o => (o.img, o.err)) = some (some ((60 : Int), 60), none) ∧
    (Resize dimOps noSeamFailure 60 ⟨60, 60, false, true⟩ ⟨false⟩ ((80 : Int), 120)).map
        (fun o => (o.img, o.err)) = some (some ((40 : Int), 40), none) ∧
    (Resize dimOps noSeamFailure 60 ⟨60, 0, false, true⟩ ⟨false⟩ ((120 : Int), 80)).map
        (fun o => (o.img, o.err)) = some (none, some ResizeErr.squareNeedsBoth) := by
  decide

/-- C8.  Counterexample: on a 200×100 source with `Percentage=true,
NewWidth=50, NewHeight=100` (scenario S3 of the spec), `Resize` does not
return a 100×100 image: the height percentage 100 makes `ph = 100 ≥
c.Height`, which the shrink-only check rejects. -/
theorem C8_s3_counterexample :
    (Resize dimOps noSeamFailure 60 ⟨50, 100, true, false⟩ ⟨false⟩ ((200 : Int), 100)).map
        (fun o => (o.img, o.err)) ≠ some (some ((100 : Int), 100), none) := by
  decide

/-- C8 as amended: on a 200×100 source with `Percentage=true, NewWidth=50,
NewHeight=100`, `Resize` fails with the percentage-enlargement error and
returns no image; a height percentage of 100 is not accepted as a shrink
(consistently with the spec's own "percent (1-99)" range, though not with its
scenario table S3). -/
theorem C8_percent100_rejected :
    (Resize dimOps noSeamFailure 60 ⟨50, 100, true, false⟩ ⟨false⟩ ((200 : Int), 100)).map
        (fun o => (o.img, o.err)) = some (none, some ResizeErr.percentEnlarge) := by
  decide

/-- C9.  For a portrait both-axes shrink (100×200 source, targets 50×150)
`calculateFitness` rescales to 38×75: it passes `sw` to the *height*
parameter of `imaging.Resize` in the `sw <= sh` branch, scaling by about 8/3
instead of the intended minimum factor 4/3, so no axis reaches its target
(the spec's pre-scale, first conjunct's comparison value, would give 75×150
with the height already at its target).  The last conjunct shows the full
`Resize` at this input indeed runs with carver dimensions 38×75 after the
pre-scale. -/
theorem C9_prescale_portrait_wrong_axis :
    calculateFitness dimOps ⟨50, 150, false, false⟩ 3 ((100 : Int), 200) (100, 200)
      = some (((38 : Int), 75), (38, 75)) ∧
    specPrescale 100 200 50 150 = ((75 : Int), 150) ∧
    ((38 : Int) ≠ 50 ∧ (75 : Int) ≠ 150) ∧
    (Resize dimOps noSeamFailure 200 ⟨50, 150, false, false⟩ ⟨false⟩ ((100 : Int), 200)).map
        (fun o => o.carver) = some ((38 : Int), 75) := by
  decide

/-- C10.  `Resize` mutates its receiver: in percentage mode (here on a
non-square source, so the unvalidated square-image shortcut is not taken)
every completed call carries a processor whose `NewWidth`/`NewHeight` have
been overwritten with the resolved absolute pixel values of `percentResolve`
(first conjunct, for every pixel model, oracle, fuel and globals); in square
mode the targets are overwritten with the side of the rescaled square (second
conjunct: the caller's `(120, 60)` becomes `(60, 60)`); and
`calculateFitness` overwrites the carver's `Width`/`Height` with the rescaled
dimensions (third conjunct: the carver `(120, 80)` becomes `(90, 60)`).
After the call the processor no longer holds the targets the caller
supplied. -/
theorem C10_receiver_overwritten {Img : Type} (ops : CarverOps Img)
    (oracle : Nat → Bool) (fuel : Nat) (p : Processor) (gs : Globals) (img : Img)
    (out : ResizeOut Img)
    (hpct : p.Percentage = true) (hsq : p.Square = false)
    (hne : ops.width img ≠ ops.height img)
    (hres : Resize ops oracle fuel p gs img = some out) :
    out.proc = (percentResolve p (ops.width img, ops.height img)).1 ∧
    (Resize dimOps noSeamFailure 60 ⟨120, 60, false, true⟩ ⟨false⟩ ((120 : Int), 80)).map
        (fun o => o.proc) = some ⟨60, 60, false, true⟩ ∧
    calculateFitness dimOps ⟨60, 60, false, true⟩ 60 ((120 : Int), 80) ((120 : Int), 80) =
      some (((90 : Int), 60), ((90 : Int), 60)) := by
  refine ⟨?_, by decide, by decide⟩
  simp only [Resize] at hres
  split at hres
  · cases hres
  · rename_i o1 hro
    simp only [Option.some.injEq] at hres
    subst hres
    have hpr := resolveOpts_pct_proc hpct hsq hne hro
    simpa [Resolved.procOf] using hpr
  · rename_i p1 c1 img1 hro
    have hpr := resolveOpts_pct_proc hpct hsq hne hro
    split at hres
    · cases hres
    · rename_i pr hps
      split at hres
      · cases hres
      · rename_i io1 acc1 hH
        split at hres
        · cases hres
        · rename_i io2 acc2 hV
          simp only [Option.some.injEq] at hres
          rw [← hres]
          simpa [Resolved.procOf] using hpr

/-- Witness for `C10_receiver_overwritten`: 50 percent on both axes of a 6x4
source; the caller's processor `(50, 50)` comes back as `(3, 2)`. -/
theorem C10_receiver_overwritten_witness :
    (⟨some ((3 : Int), 2), none, ⟨3, 2, true, false⟩, ((3 : Int), 2), ⟨true⟩,
        ⟨0, [], [], 0⟩⟩ : ResizeOut Dims).proc =
      (percentResolve ⟨50, 50, true, false⟩
        (dimOps.width ((6 : Int), 4), dimOps.height ((6 : Int), 4))).1 ∧
    (Resize dimOps noSeamFailure 60 ⟨120, 60, false, true⟩ ⟨false⟩ ((120 : Int), 80)).map
        (fun o => o.proc) = some ⟨60, 60, false, true⟩ ∧
    calculateFitness dimOps ⟨60, 60, false, true⟩ 60 ((120 : Int), 80) ((120 : Int), 80) =
      some (((90 : Int), 60), ((90 : Int), 60)) :=
  C10_receiver_overwritten dimOps noSeamFailure 60 ⟨50, 50, true, false⟩ ⟨false⟩
    ((6 : Int), 4)
    ⟨some ((3 : Int), 2), none, ⟨3, 2, true, false⟩, ((3 : Int), 2), ⟨true⟩, ⟨0, [], [], 0⟩⟩
    (by decide) (by decide) (by decide) (by decide)

end Caire
